import Mathlib

/-!
Verification development for a single-pass bytecode compiler and stack VM
for a small expression language (scanner, Pratt compiler, VM), shallowly
embedded from the Rust sources in src/ (value.rs, chunk.rs, scanner.rs,
compiler.rs, vm.rs).

Modelling conventions:
  - Rust f64 is modelled by F64: NaN, signed infinities, and finite values
    as exact rationals.  All arithmetic used by the verified scenarios is
    exact (small integers), where IEEE-754 rounding never fires; NaN and
    infinity propagation follows IEEE-754 as the comparison/equality claims
    require.  The sign of zero is not tracked (it is unobservable through
    the equality and comparison operators of value.rs and vm.rs).
  - The source string owned by the Rust Scanner is immutable for the whole
    compilation, so it is passed as an explicit parameter src instead of
    being a field of the scanner state.
  - Loops in scanner.rs are modelled by fueled helpers; the fuel
    src.length + 1 always dominates the number of iterations because every
    iteration advances the cursor.  The compiler and VM loops take an
    explicit fuel argument; running out of fuel is a distinguished outcome.
  - Rust panics (stack exhaustion, invalid opcode, out-of-bounds index,
    and the internal compiler errors of compiler.rs) are distinguished
    outcomes (.panic / .ice).
-/

namespace Clox

/-! ## F64: model of Rust f64 (value.rs payload) -/

/-- Exact rational addition via mkRat (kernel-computable). -/
def qadd (a b : ℚ) : ℚ :=
  mkRat (Int.add (Int.mul a.num (Int.ofNat b.den)) (Int.mul b.num (Int.ofNat a.den)))
    (a.den * b.den)

/-- Exact rational multiplication via mkRat. -/
def qmul (a b : ℚ) : ℚ := mkRat (Int.mul a.num b.num) (a.den * b.den)

/-- Exact rational division via mkRat (callers exclude a zero divisor). -/
def qdiv (a b : ℚ) : ℚ :=
  let n := Int.mul a.num (Int.ofNat b.den)
  let d := Int.mul (Int.ofNat a.den) b.num
  if 0 ≤ d then mkRat n d.natAbs else mkRat (Int.neg n) d.natAbs

/-- Model of an f64: NaN, infinity (neg = true for negative infinity), or a
finite value as an exact rational. -/
inductive F64 where
  | nan : F64
  | inf (neg : Bool) : F64
  | finite (q : ℚ) : F64
deriving Repr, DecidableEq

/-- IEEE negation (the Negate opcode and unary minus in vm.rs: `-*num`). -/
def F64.neg : F64 → F64
  | .nan => .nan
  | .inf s => .inf (!s)
  | .finite q => .finite (Rat.neg q)

/-- IEEE addition (exact on finite values; NaN and infinities propagate). -/
def F64.add : F64 → F64 → F64
  | .nan, _ => .nan
  | _, .nan => .nan
  | .inf s, .inf t => if s = t then .inf s else .nan
  | .inf s, .finite _ => .inf s
  | .finite _, .inf t => .inf t
  | .finite a, .finite b => .finite (qadd a b)

/-- IEEE subtraction: a - b = a + (-b). -/
def F64.sub (a b : F64) : F64 := a.add b.neg

/-- IEEE multiplication (exact on finite values). -/
def F64.mul : F64 → F64 → F64
  | .nan, _ => .nan
  | _, .nan => .nan
  | .inf s, .inf t => .inf (xor s t)
  | .inf s, .finite b => if b = 0 then .nan else .inf (xor s (decide (b < 0)))
  | .finite a, .inf t => if a = 0 then .nan else .inf (xor t (decide (a < 0)))
  | .finite a, .finite b => .finite (qmul a b)

/-- IEEE division (exact on finite values; 0/0 is NaN, x/0 is infinity). -/
def F64.div : F64 → F64 → F64
  | .nan, _ => .nan
  | _, .nan => .nan
  | .inf _, .inf _ => .nan
  | .inf s, .finite b => .inf (xor s (decide (b < 0)))
  | .finite _, .inf _ => .finite 0
  | .finite a, .finite b =>
      if b = 0 then (if a = 0 then .nan else .inf (decide (a < 0)))
      else .finite (qdiv a b)

/-- IEEE equality: NaN is not equal to anything, including itself. -/
def F64.beq : F64 → F64 → Bool
  | .nan, _ => false
  | _, .nan => false
  | .inf s, .inf t => s = t
  | .finite a, .finite b => a = b
  | _, _ => false

/-- IEEE strict less-than: any comparison with NaN is false. -/
def F64.blt : F64 → F64 → Bool
  | .nan, _ => false
  | _, .nan => false
  | .inf s, .inf t => s && !t
  | .inf s, .finite _ => s
  | .finite _, .inf t => !t
  | .finite a, .finite b => a < b

/-- IEEE strict greater-than. -/
def F64.bgt (a b : F64) : Bool := F64.blt b a

/-! ## Value (value.rs) -/

/-- value.rs: `enum Value { Nil, Bool(bool), Number(f64) }`. -/
inductive Value where
  | nil : Value
  | bool (b : Bool) : Value
  | number (n : F64) : Value
deriving Repr, DecidableEq

/-- value.rs `Value::is_falsey`: true iff Nil or Bool(false). -/
def Value.is_falsey : Value → Bool
  | .nil => true
  | .bool false => true
  | _ => false

/-- The derived PartialEq of value.rs: same variant and equal payloads,
with Number payloads compared by IEEE equality (so NaN is unequal to NaN). -/
def valueBeq : Value → Value → Bool
  | .nil, .nil => true
  | .bool a, .bool b => a = b
  | .number a, .number b => F64.beq a b
  | _, _ => false

/-! ## Chunk and opcodes (chunk.rs) -/

/-- chunk.rs `OpCode` with its `repr(u8)` discriminants 0..13. -/
inductive OpCode where
  | Return | Constant | Negate | Add | Subtract | Multiply | Divide
  | Nil | True | False | Not | Equal | Greater | Less
deriving Repr, DecidableEq

/-- The byte of each opcode (the `as u8` casts in compiler.rs). -/
def OpCode.toByte : OpCode → Nat
  | .Return => 0 | .Constant => 1 | .Negate => 2 | .Add => 3
  | .Subtract => 4 | .Multiply => 5 | .Divide => 6 | .Nil => 7
  | .True => 8 | .False => 9 | .Not => 10 | .Equal => 11
  | .Greater => 12 | .Less => 13

/-- chunk.rs `TryFrom<u8> for OpCode`: decoding of a byte. -/
def OpCode.ofByte : Nat → Option OpCode
  | 0 => some .Return | 1 => some .Constant | 2 => some .Negate
  | 3 => some .Add | 4 => some .Subtract | 5 => some .Multiply
  | 6 => some .Divide | 7 => some .Nil | 8 => some .True
  | 9 => some .False | 10 => some .Not | 11 => some .Equal
  | 12 => some .Greater | 13 => some .Less
  | _ => none

/-- chunk.rs `Chunk`: code bytes, constant pool (value.rs `ValueArray`
flattened to its inner vector), and the per-byte line map. -/
structure Chunk where
  code : List Nat
  constants : List Value
  lines : List Nat
deriving Repr, DecidableEq

/-- chunk.rs `Chunk::write`: append one byte and one line. -/
def Chunk.write (c : Chunk) (byte : Nat) (line : Nat) : Chunk :=
  { c with code := c.code ++ [byte], lines := c.lines ++ [line] }

/-- value.rs `ValueArray::add` acting on the chunk's pool: push the value
and return the index it received (the previous length). -/
def Chunk.addConstant (c : Chunk) (v : Value) : Chunk × Nat :=
  ({ c with constants := c.constants ++ [v] }, c.constants.length)

/-! ## Scanner (scanner.rs) -/

/-- scanner.rs `TokenKind`. -/
inductive TokenKind where
  | leftParen | rightParen | leftBrace | rightBrace
  | comma | dot | minus | plus | semicolon | slash | star
  | bang | bangEqual | equal | equalEqual
  | greater | greaterEqual | less | lessEqual
  | identifier | stringTk | numberTk
  | kwAnd | kwClass | kwElse | kwFalse | kwFor | kwFun | kwIf | kwNil
  | kwOr | kwPrint | kwReturn | kwSuper | kwThis | kwTrue | kwVar | kwWhile
  | errorTk | endOfFile
deriving Repr, DecidableEq

/-- scanner.rs `Token`: kind, lexeme (slice of the source, or the message
for Error tokens), and 1-based line. -/
structure Token where
  kind : TokenKind
  lexeme : List Char
  line : Nat
deriving Repr, DecidableEq

/-- Scanner state (scanner.rs): offsets into the source and current line.
The immutable source itself is passed separately as src. -/
structure Scanner where
  start : Nat
  current : Nat
  line : Nat
deriving Repr, DecidableEq

/-- scanner.rs `peek`-style access: the character at index i, or the NUL
character past the end (Rust returns a 0 char when at the end). -/
def peekAt (src : List Char) (i : Nat) : Char := src.getD i '\x00'

/-- The lexeme slice `source[a..b]`. -/
def sliceLex (src : List Char) (a b : Nat) : List Char := (src.drop a).take (b - a)

/-- Characters that may continue an identifier (scanner.rs `identifier`):
ASCII letters, ASCII digits, or an underscore. -/
def identCont (c : Char) : Bool := c.isAlpha || c.isDigit || c = '_'

/-- The inner comment loop of scanner.rs `skip_whitespace`: advance until a
newline or the end of the source. -/
def skipCommentTo (src : List Char) : Nat → Nat → Nat
  | 0, cur => cur
  | f+1, cur =>
      if cur < src.length ∧ peekAt src cur ≠ '\n' then skipCommentTo src f (cur+1)
      else cur

/-- scanner.rs `skip_whitespace`: skip blanks, tabs, carriage returns,
newlines (counting lines), and line comments. -/
def skipWsAux (src : List Char) : Nat → Nat → Nat → Nat × Nat
  | 0, cur, line => (cur, line)
  | f+1, cur, line =>
      let ch := peekAt src cur
      if ch = ' ' ∨ ch = '\r' ∨ ch = '\t' then skipWsAux src f (cur+1) line
      else if ch = '\n' then skipWsAux src f (cur+1) (line+1)
      else if ch = '/' then
        if peekAt src (cur+1) = '/' then
          skipWsAux src f (skipCommentTo src (src.length + 1) cur) line
        else (cur, line)
      else (cur, line)

/-- The identifier loop of scanner.rs: advance while the next character may
continue an identifier. -/
def identEndAux (src : List Char) : Nat → Nat → Nat
  | 0, cur => cur
  | f+1, cur => if identCont (peekAt src cur) then identEndAux src f (cur+1) else cur

/-- The digit loops of scanner.rs `number`. -/
def digitsEndAux (src : List Char) : Nat → Nat → Nat
  | 0, cur => cur
  | f+1, cur => if (peekAt src cur).isDigit then digitsEndAux src f (cur+1) else cur

/-- The string loop of scanner.rs `string`: advance to the closing quote or
the end of the source, counting embedded newlines. -/
def stringEndAux (src : List Char) : Nat → Nat → Nat → Nat × Nat
  | 0, cur, line => (cur, line)
  | f+1, cur, line =>
      if cur < src.length ∧ peekAt src cur ≠ '"' then
        stringEndAux src f (cur+1) (if peekAt src cur = '\n' then line + 1 else line)
      else (cur, line)

/-- scanner.rs `check_keyword`. -/
def checkKeyword (src : List Char) (start cur off : Nat) (rest : List Char)
    (k : TokenKind) : TokenKind :=
  if cur - start = off + rest.length ∧
      sliceLex src (start + off) (start + off + rest.length) = rest then k
  else .identifier

/-- scanner.rs `identifier_type`: the keyword trie. -/
def identifierType (src : List Char) (start cur : Nat) : TokenKind :=
  match peekAt src start with
  | 'a' => checkKeyword src start cur 1 "nd".data .kwAnd
  | 'c' => checkKeyword src start cur 1 "lass".data .kwClass
  | 'e' => checkKeyword src start cur 1 "lse".data .kwElse
  | 'i' => checkKeyword src start cur 1 "f".data .kwIf
  | 'n' => checkKeyword src start cur 1 "il".data .kwNil
  | 'o' => checkKeyword src start cur 1 "r".data .kwOr
  | 'p' => checkKeyword src start cur 1 "rint".data .kwPrint
  | 'r' => checkKeyword src start cur 1 "eturn".data .kwReturn
  | 's' => checkKeyword src start cur 1 "uper".data .kwSuper
  | 'v' => checkKeyword src start cur 1 "ar".data .kwVar
  | 'w' => checkKeyword src start cur 1 "hile".data .kwWhile
  | 'f' =>
      if 1 < cur - start then
        match peekAt src (start + 1) with
        | 'a' => checkKeyword src start cur 2 "lse".data .kwFalse
        | 'o' => checkKeyword src start cur 2 "r".data .kwFor
        | 'u' => checkKeyword src start cur 2 "n".data .kwFun
        | _ => .identifier
      else .identifier
  | 't' =>
      if 1 < cur - start then
        match peekAt src (start + 1) with
        | 'h' => checkKeyword src start cur 2 "is".data .kwThis
        | 'r' => checkKeyword src start cur 2 "ue".data .kwTrue
        | _ => .identifier
      else .identifier
  | _ => .identifier

/-- scanner.rs `make_token` for tokens ending at cur (line taken at token
start; only strings can change the line inside a token). -/
def simpleTok (src : List Char) (start cur line : Nat) (k : TokenKind) :
    Token × Scanner :=
  (⟨k, sliceLex src start cur, line⟩, ⟨start, cur, line⟩)

/-- scanner.rs `scan_token`: skip whitespace, then produce the next token
and the scanner state after it. -/
def scanToken (src : List Char) (s : Scanner) : Token × Scanner :=
  let p := skipWsAux src (src.length + 1) s.current s.line
  let start := p.1
  let line0 := p.2
  if src.length ≤ start then
    (⟨.endOfFile, sliceLex src start start, line0⟩, ⟨start, start, line0⟩)
  else
    let c := peekAt src start
    let cur := start + 1
    if c.isAlpha ∨ c = '_' then
      let cur := identEndAux src (src.length + 1) cur
      simpleTok src start cur line0 (identifierType src start cur)
    else if c.isDigit then
      let cur := digitsEndAux src (src.length + 1) cur
      let cur :=
        if peekAt src cur = '.' ∧ (peekAt src (cur + 1)).isDigit then
          digitsEndAux src (src.length + 1) (cur + 1)
        else cur
      simpleTok src start cur line0 .numberTk
    else
      match c with
      | '(' => simpleTok src start cur line0 .leftParen
      | ')' => simpleTok src start cur line0 .rightParen
      | '{' => simpleTok src start cur line0 .leftBrace
      | '}' => simpleTok src start cur line0 .rightBrace
      | ';' => simpleTok src start cur line0 .semicolon
      | ',' => simpleTok src start cur line0 .comma
      | '.' => simpleTok src start cur line0 .dot
      | '-' => simpleTok src start cur line0 .minus
      | '+' => simpleTok src start cur line0 .plus
      | '/' => simpleTok src start cur line0 .slash
      | '*' => simpleTok src start cur line0 .star
      | '!' =>
          if peekAt src cur = '=' then simpleTok src start (cur+1) line0 .bangEqual
          else simpleTok src start cur line0 .bang
      | '=' =>
          if peekAt src cur = '=' then simpleTok src start (cur+1) line0 .equalEqual
          else simpleTok src start cur line0 .equal
      | '<' =>
          if peekAt src cur = '=' then simpleTok src start (cur+1) line0 .lessEqual
          else simpleTok src start cur line0 .less
      | '>' =>
          if peekAt src cur = '=' then simpleTok src start (cur+1) line0 .greaterEqual
          else simpleTok src start cur line0 .greater
      | '"' =>
          let q := stringEndAux src (src.length + 1) cur line0
          if src.length ≤ q.1 then
            (⟨.errorTk, "Unterminated string.".data, q.2⟩, ⟨start, q.1, q.2⟩)
          else
            (⟨.stringTk, sliceLex src start (q.1 + 1), q.2⟩, ⟨start, q.1 + 1, q.2⟩)
      | _ => (⟨.errorTk, "Unexpected character.".data, line0⟩, ⟨start, cur, line0⟩)

/-! ## Compiler (compiler.rs) -/

/-- compiler.rs `Precedence` (low to high). -/
inductive Precedence where
  | None | Assignment | Or | And | Equality | Comparison
  | Term | Factor | Unary | Call | Primary
deriving Repr, DecidableEq

/-- The position of a precedence in the ladder; the derived PartialOrd of
compiler.rs compares by declaration order, i.e. by this number. -/
def Precedence.toNat : Precedence → Nat
  | .None => 0 | .Assignment => 1 | .Or => 2 | .And => 3 | .Equality => 4
  | .Comparison => 5 | .Term => 6 | .Factor => 7 | .Unary => 8 | .Call => 9
  | .Primary => 10

/-- compiler.rs `Precedence::plus_one`. -/
def Precedence.plusOne : Precedence → Precedence
  | .None => .Assignment | .Assignment => .Or | .Or => .And | .And => .Equality
  | .Equality => .Comparison | .Comparison => .Term | .Term => .Factor
  | .Factor => .Unary | .Unary => .Call | .Call => .Primary | .Primary => .Primary

/-- compiler.rs `get_rule_precedence`. -/
def getRulePrec : TokenKind → Precedence
  | .minus | .plus => .Term
  | .slash | .star => .Factor
  | .bangEqual | .equalEqual => .Equality
  | .greater | .greaterEqual | .less | .lessEqual => .Comparison
  | _ => .None

/-- One error report printed on stderr by compiler.rs `error_at`
(the line of the token it points at and the message). -/
structure ErrReport where
  line : Nat
  message : List Char
deriving Repr, DecidableEq

/-- compiler.rs `Parser`: previous and current token, the sticky error
flag, and panic mode. -/
structure ParserSt where
  previous : Token
  current : Token
  hadError : Bool
  panicMode : Bool
deriving Repr, DecidableEq

/-- The compiler's mutable state: its scanner, parser, the chunk under
construction, and the error reports emitted so far. -/
structure CompilerSt where
  scanner : Scanner
  parser : ParserSt
  chunk : Chunk
  errors : List ErrReport
deriving Repr, DecidableEq

/-- Outcome of a compiler step: a new state, an internal compiler error
(a Rust panic), or fuel exhaustion (an artifact of the embedding). -/
inductive CRes where
  | ok (st : CompilerSt)
  | ice
  | fuel
deriving Repr, DecidableEq

/-- Sequencing of compiler steps (panic and fuel exhaustion propagate). -/
def CRes.bind (r : CRes) (g : CompilerSt → CRes) : CRes :=
  match r with
  | .ok st => g st
  | .ice => .ice
  | .fuel => .fuel

/-- compiler.rs `error_at`: suppressed entirely in panic mode; otherwise
sets panic mode, reports at the token's line, and latches had_error. -/
def errorAt (st : CompilerSt) (tok : Token) (msg : List Char) : CompilerSt :=
  if st.parser.panicMode then st
  else
    { st with
      parser := { st.parser with panicMode := true, hadError := true },
      errors := st.errors ++ [⟨tok.line, msg⟩] }

/-- compiler.rs `error_at_current`. -/
def errorAtCurrent (st : CompilerSt) (msg : List Char) : CompilerSt :=
  errorAt st st.parser.current msg

/-- compiler.rs `error` (reports at the previous token). -/
def errorPrev (st : CompilerSt) (msg : List Char) : CompilerSt :=
  errorAt st st.parser.previous msg

/-- The token-fetch loop inside compiler.rs `advance`: scan tokens,
reporting and skipping Error tokens, until a non-error token arrives. -/
def advLoop (src : List Char) : Nat → CompilerSt → CRes
  | 0, _ => .fuel
  | f+1, st =>
      let ts := scanToken src st.scanner
      let st := { st with scanner := ts.2,
                          parser := { st.parser with current := ts.1 } }
      if ts.1.kind = .errorTk then advLoop src f (errorAtCurrent st ts.1.lexeme)
      else .ok st

/-- compiler.rs `advance`: previous := current, then fetch the next
non-error token into current. -/
def advanceC (src : List Char) (f : Nat) (st : CompilerSt) : CRes :=
  advLoop src f
    { st with parser := { st.parser with previous := st.parser.current } }

/-- compiler.rs `consume`. -/
def consumeC (src : List Char) (f : Nat) (k : TokenKind) (msg : List Char)
    (st : CompilerSt) : CRes :=
  if st.parser.current.kind = k then advanceC src f st
  else .ok (errorAtCurrent st msg)

/-- compiler.rs `emit_byte`: write the byte with the line of the
PREVIOUSly consumed token at the moment of emission. -/
def emitByte (st : CompilerSt) (b : Nat) : CompilerSt :=
  { st with chunk := st.chunk.write b st.parser.previous.line }

/-- compiler.rs `emit_bytes`. -/
def emitBytes (st : CompilerSt) (bs : List Nat) : CompilerSt :=
  bs.foldl emitByte st

/-- compiler.rs `make_constant`: intern the value; none (a fatal internal
compiler error in Rust) iff the index does not fit in one byte. -/
def makeConstant (st : CompilerSt) (v : Value) : Option (CompilerSt × Nat) :=
  let p := st.chunk.addConstant v
  if p.2 ≤ 255 then some ({ st with chunk := p.1 }, p.2) else none

/-- compiler.rs `emit_constant`: Constant opcode followed by the index. -/
def emitConstant (st : CompilerSt) (v : Value) : CRes :=
  match makeConstant st v with
  | none => .ice
  | some p => .ok (emitBytes p.1 [OpCode.Constant.toByte, p.2])

/-- The f64 value of a number lexeme (digits with an optional fractional
part), exactly.  Rust uses `str::parse::<f64>` here, which can only be
reached with lexemes produced by scanner.rs `number`, on which this
function agrees (the scenarios use exactly representable values); the
function is total where Rust would panic on a malformed lexeme. -/
def parseNumLexeme (cs : List Char) : ℚ :=
  let ip := cs.takeWhile (· ≠ '.')
  let fp := (cs.dropWhile (· ≠ '.')).drop 1
  let ipv : Nat := ip.foldl (fun a c => a * 10 + (c.toNat - '0'.toNat)) 0
  let fpv : Nat := fp.foldl (fun a c => a * 10 + (c.toNat - '0'.toNat)) 0
  let d : Nat := Nat.pow 10 fp.length
  mkRat (Int.ofNat (ipv * d + fpv)) d

/-- compiler.rs `number`: parse the previous token's lexeme and emit it as
a constant. -/
def numberC (st : CompilerSt) : CRes :=
  emitConstant st (.number (.finite (parseNumLexeme st.parser.previous.lexeme)))

/-- compiler.rs `literal`: emit False/True/Nil for the previous token. -/
def literalC (st : CompilerSt) : CRes :=
  match st.parser.previous.kind with
  | .kwFalse => .ok (emitByte st OpCode.False.toByte)
  | .kwTrue => .ok (emitByte st OpCode.True.toByte)
  | .kwNil => .ok (emitByte st OpCode.Nil.toByte)
  | _ => .ice

/-- Tags for the mutually recursive parsing routines of compiler.rs:
parse_precedence, its trailing loop, the prefix and the binary-operator
rule dispatch, grouping, unary, binary, and expression. -/
inductive PFun where
  | pp (prec : Precedence)
  | loop (prec : Precedence)
  | pre (k : TokenKind)
  | inf (k : TokenKind)
  | grp
  | una
  | bin
  | expr
deriving Repr, DecidableEq

/-- The Pratt parser of compiler.rs, defunctionalized over PFun and fueled
(each Rust call passes one unit of fuel down). -/
def pstep (src : List Char) : Nat → PFun → CompilerSt → CRes
  | 0, _, _ => .fuel
  | f+1, tag, st =>
      match tag with
      | .pp prec =>
          (advanceC src f st).bind fun st1 =>
          (pstep src f (.pre st1.parser.previous.kind) st1).bind fun st2 =>
          pstep src f (.loop prec) st2
      | .loop prec =>
          if prec.toNat ≤ (getRulePrec st.parser.current.kind).toNat then
            (advanceC src f st).bind fun st1 =>
            (pstep src f (.inf st1.parser.previous.kind) st1).bind fun st2 =>
            pstep src f (.loop prec) st2
          else .ok st
      | .pre k =>
          match k with
          | .leftParen => pstep src f .grp st
          | .minus | .bang => pstep src f .una st
          | .numberTk => numberC st
          | .kwFalse | .kwTrue | .kwNil => literalC st
          | _ => .ok (errorPrev st "Expect expression.".data)
      | .inf k =>
          match k with
          | .minus | .plus | .slash | .star | .bangEqual | .equalEqual
          | .greater | .greaterEqual | .less | .lessEqual =>
              pstep src f .bin st
          | _ => .ok (errorPrev st "Expect expression.".data)
      | .grp =>
          (pstep src f .expr st).bind fun st1 =>
          consumeC src f .rightParen "Expect ')' after expression.".data st1
      | .una =>
          let op := st.parser.previous.kind
          (pstep src f (.pp .Unary) st).bind fun st1 =>
          match op with
          | .minus => .ok (emitByte st1 OpCode.Negate.toByte)
          | .bang => .ok (emitByte st1 OpCode.Not.toByte)
          | _ => .ice
      | .bin =>
          let op := st.parser.previous.kind
          (pstep src f (.pp (getRulePrec op).plusOne) st).bind fun st1 =>
          match op with
          | .plus => .ok (emitByte st1 OpCode.Add.toByte)
          | .minus => .ok (emitByte st1 OpCode.Subtract.toByte)
          | .star => .ok (emitByte st1 OpCode.Multiply.toByte)
          | .slash => .ok (emitByte st1 OpCode.Divide.toByte)
          | .bangEqual => .ok (emitBytes st1 [OpCode.Equal.toByte, OpCode.Not.toByte])
          | .equalEqual => .ok (emitByte st1 OpCode.Equal.toByte)
          | .greater => .ok (emitByte st1 OpCode.Greater.toByte)
          | .greaterEqual => .ok (emitBytes st1 [OpCode.Less.toByte, OpCode.Not.toByte])
          | .less => .ok (emitByte st1 OpCode.Less.toByte)
          | .lessEqual => .ok (emitBytes st1 [OpCode.Greater.toByte, OpCode.Not.toByte])
          | _ => .ice
      | .expr => pstep src f (.pp .Assignment) st

/-- The initial compiler state of compiler.rs `Compiler::new` (both tokens
are the "Nothing is read yet." dummies at line 0). -/
def initState : CompilerSt :=
  { scanner := ⟨0, 0, 1⟩,
    parser := { previous := ⟨.errorTk, "Nothing is read yet.".data, 0⟩,
                current := ⟨.errorTk, "Nothing is read yet.".data, 0⟩,
                hadError := false, panicMode := false },
    chunk := ⟨[], [], []⟩,
    errors := [] }

/-- compiler.rs `end_compiler` / `emit_return`: emit the Return opcode. -/
def endCompiler (st : CompilerSt) : CompilerSt :=
  emitByte st OpCode.Return.toByte

/-- compiler.rs `compile`, up to the final had_error check: advance,
parse one expression, consume end of input, emit Return. -/
def compileSt (src : List Char) (f : Nat) : CRes :=
  (advanceC src f initState).bind fun st =>
  (pstep src f .expr st).bind fun st =>
  (consumeC src f .endOfFile "Expect end of expression.".data st).bind fun st =>
  .ok (endCompiler st)

/-- The result of compiler.rs `compile`: the chunk on success, or a
compile error with the reports emitted. -/
inductive CompileOut where
  | ok (c : Chunk)
  | compileError (errors : List ErrReport)
  | ice
  | fuel
deriving Repr, DecidableEq

/-- compiler.rs `compile`: Err iff had_error latched. -/
def compile (src : List Char) (f : Nat) : CompileOut :=
  match compileSt src f with
  | .ok st => if st.parser.hadError then .compileError st.errors else .ok st.chunk
  | .ice => .ice
  | .fuel => .fuel

/-! ## VM (vm.rs) -/

/-- vm.rs `VM` state: the chunk, the instruction pointer, and the value
stack (head of the list = top of the stack). -/
structure VMState where
  chunk : Chunk
  ip : Nat
  stack : List Value
deriving Repr, DecidableEq

/-- The stderr report of vm.rs `runtime_error`: message and
`[line L] in script` with L = lines[ip - 1]. -/
structure RtReport where
  message : List Char
  line : Nat
deriving Repr, DecidableEq

/-- vm.rs `runtime_error`: report at the line of the byte just consumed
and clear the stack. -/
def runtimeError (vm : VMState) (msg : List Char) : RtReport × VMState :=
  (⟨msg, vm.chunk.lines.getD (vm.ip - 1) 0⟩, { vm with stack := [] })

/-- Outcome of vm.rs `run`: Ok(value) at Return, a runtime error (with the
report and the VM state it left behind), a Rust panic (stack exhaustion,
invalid opcode or out-of-bounds read), or fuel exhaustion. -/
inductive RunRes where
  | ok (v : Option Value) (vm : VMState)
  | rtErr (rep : RtReport) (vm : VMState)
  | panic
  | fuel
deriving Repr, DecidableEq

/-- vm.rs `run`: the dispatch loop.  Reading the opcode advances ip by one
(written inline below as ip + 1), and the Constant operand read advances it
once more (ip + 2). -/
def run : Nat → VMState → RunRes
  | 0, _ => .fuel
  | f+1, vm =>
      match vm.chunk.code.get? vm.ip with
      | none => .panic
      | some b =>
          match OpCode.ofByte b with
          | none => .panic
          | some op =>
              match op with
              | .Return =>
                  match vm.stack with
                  | [] => .panic
                  | v :: rest =>
                      .ok (some v) { vm with ip := vm.ip + 1, stack := rest }
              | .Constant =>
                  match vm.chunk.code.get? (vm.ip + 1) with
                  | none => .panic
                  | some idx =>
                      match vm.chunk.constants.get? idx with
                      | none => .panic
                      | some v =>
                          run f { vm with ip := vm.ip + 2, stack := v :: vm.stack }
              | .Negate =>
                  match vm.stack with
                  | [] => .panic
                  | .number n :: rest =>
                      run f { vm with ip := vm.ip + 1, stack := .number n.neg :: rest }
                  | _ :: _ =>
                      .rtErr ⟨"Operand must be a number.".data,
                          vm.chunk.lines.getD vm.ip 0⟩
                        { vm with ip := vm.ip + 1, stack := [] }
              | .Add | .Subtract | .Multiply | .Divide | .Greater | .Less =>
                  match vm.stack with
                  | b2 :: a2 :: rest =>
                      match a2, b2 with
                      | .number x, .number y =>
                          run f { vm with
                                  ip := vm.ip + 1,
                                  stack :=
                                    (match op with
                                      | .Add => Value.number (x.add y)
                                      | .Subtract => Value.number (x.sub y)
                                      | .Multiply => Value.number (x.mul y)
                                      | .Divide => Value.number (x.div y)
                                      | .Greater => Value.bool (x.bgt y)
                                      | _ => Value.bool (x.blt y)) :: rest }
                      | _, _ =>
                          .rtErr ⟨"Operands must be numbers.".data,
                              vm.chunk.lines.getD vm.ip 0⟩
                            { vm with ip := vm.ip + 1, stack := [] }
                  | _ => .panic
              | .Nil =>
                  run f { vm with ip := vm.ip + 1, stack := .nil :: vm.stack }
              | .True =>
                  run f { vm with ip := vm.ip + 1, stack := .bool true :: vm.stack }
              | .False =>
                  run f { vm with ip := vm.ip + 1, stack := .bool false :: vm.stack }
              | .Not =>
                  match vm.stack with
                  | [] => .panic
                  | v :: rest =>
                      run f { vm with ip := vm.ip + 1, stack := .bool v.is_falsey :: rest }
              | .Equal =>
                  match vm.stack with
                  | b2 :: a2 :: rest =>
                      run f { vm with
                              ip := vm.ip + 1,
                              stack := .bool (valueBeq a2 b2) :: rest }
                  | _ => .panic

/-- The result of vm.rs `VM::interpret` on a fresh VM, with the compiler
or runtime diagnostics attached. -/
inductive InterpRes where
  | ok (v : Option Value) (vm : VMState)
  | compileErr (errors : List ErrReport)
  | runtimeErr (rep : RtReport) (vm : VMState)
  | panic
  | fuel
deriving Repr, DecidableEq

/-- vm.rs `VM::interpret` driven from `VM::new()`: compile, install the
chunk at ip 0, and run. -/
def interpret (src : List Char) (f : Nat) : InterpRes :=
  match compile src f with
  | .compileError errs => .compileErr errs
  | .ice => .panic
  | .fuel => .fuel
  | .ok chunk =>
      match run f ⟨chunk, 0, []⟩ with
      | .ok v vm => .ok v vm
      | .rtErr r vm => .runtimeErr r vm
      | .panic => .panic
      | .fuel => .fuel

/-- The final value of an interpretation, when it ended at Return. -/
def resultValue : InterpRes → Option (Option Value)
  | .ok v _ => some v
  | _ => none

/-- Whether interpretation ended in a compile error. -/
def isCompileErr : InterpRes → Bool
  | .compileErr _ => true
  | _ => false

/-- Whether interpretation ended in a runtime error. -/
def isRuntimeErr : InterpRes → Bool
  | .runtimeErr _ _ => true
  | _ => false

/-- The message of the runtime error report, if any. -/
def rtMessage : InterpRes → Option (List Char)
  | .runtimeErr r _ => some r.message
  | _ => none

/-! ## Spec-side measures and invariants -/

/-- 1 for a Number token kind, 0 otherwise. -/
def numTokK (k : TokenKind) : Nat := if k = .numberTk then 1 else 0

/-- Fueled count of the Number tokens the scanner will still produce. -/
def countNumAux (src : List Char) : Nat → Scanner → Nat
  | 0, _ => 0
  | f+1, s =>
      let ts := scanToken src s
      if ts.1.kind = .endOfFile then 0
      else numTokK ts.1.kind + countNumAux src f ts.2

/-- The number of Number tokens (number literals) remaining in the source
from the given scanner state; src.length + 1 fuel always suffices because
every token before end of input consumes at least one character. -/
def countNumberTokens (src : List Char) (s : Scanner) : Nat :=
  countNumAux src (src.length + 1) s

/-- The number of number literals of a whole source string. -/
def numLiterals (src : List Char) : Nat := countNumberTokens src ⟨0, 0, 1⟩

/-- Number tokens not yet moved past the parser's current token: the
current token plus everything still in the scanner. -/
def numCur (src : List Char) (st : CompilerSt) : Nat :=
  numTokK st.parser.current.kind + countNumberTokens src st.scanner

/-- Well-formed instruction sequences over a pool of n constants: a list
of whole instructions in which every Constant opcode (byte 1) is followed
by an inline index smaller than n.  This is the §3 invariant that every
constant index inlined in code is a valid index into constants. -/
inductive InstrSeq (n : Nat) : List Nat → Prop
  | nil : InstrSeq n []
  | op {b : Nat} {rest : List Nat} : b ≠ 1 → InstrSeq n rest → InstrSeq n (b :: rest)
  | con {i : Nat} {rest : List Nat} : i < n → InstrSeq n rest → InstrSeq n (1 :: i :: rest)

/-- How one compiler state extends another across a compiler step: code
and constants are append-only, the code/lines parallelism and the
instruction-sequence invariant are preserved, and panic mode stays equal
to had_error once it started that way. -/
structure StExt (st st' : CompilerSt) : Prop where
  code_app : ∃ t, st'.chunk.code = st.chunk.code ++ t
  consts_app : ∃ u, st'.chunk.constants = st.chunk.constants ++ u
  len_eq : st.chunk.code.length = st.chunk.lines.length →
    st'.chunk.code.length = st'.chunk.lines.length
  wfi : InstrSeq st.chunk.constants.length st.chunk.code →
    InstrSeq st'.chunk.constants.length st'.chunk.code
  pm_he : st.parser.panicMode = st.parser.hadError →
    st'.parser.panicMode = st'.parser.hadError
  he_mono : st.parser.hadError = true → st'.parser.hadError = true
  errors_app : ∃ e, st'.errors = st.errors ++ e

/-- The token kinds with a usable rule in compiler.rs do_rule dispatch for
the start of an expression: grouping, unary minus and bang, number
literals, and the false/true/nil literals.  All other kinds fall to the
"Expect expression." report. -/
def prefixActionable : TokenKind → Bool
  | .leftParen | .minus | .bang | .numberTk | .kwFalse | .kwTrue | .kwNil => true
  | _ => false

/-- The model equality of §3: two Values are equal iff they share the same
variant and the payloads are equal by the payload's natural equality, with
Number payloads compared by IEEE-754 equality. -/
def SameVariantEq : Value → Value → Prop
  | .nil, .nil => True
  | .bool a, .bool b => a = b
  | .number x, .number y => F64.beq x y = true
  | _, _ => False

/-- The invariant every parsing routine preserves: on success the state is
extended (StExt) and the constant count plus the pending number tokens
grows by at most slack; and the routine cannot raise an internal compiler
error while that measure stays within the 256-entry pool capacity. -/
def POk (src : List Char) (slack : Nat) (st : CompilerSt) (r : CRes) : Prop :=
  (∀ st', r = .ok st' →
    StExt st st' ∧
    st'.chunk.constants.length + numCur src st' ≤
      st.chunk.constants.length + numCur src st + slack) ∧
  (st.chunk.constants.length + numCur src st + slack ≤ 256 → r ≠ .ice)

/-- The slack of each parsing routine: the prefix/binary-operator rule for
a token kind may intern one constant when that kind is a number literal. -/
def tagSlack : PFun → Nat
  | .pre k => numTokK k
  | .inf k => numTokK k
  | _ => 0

/-- The call-site precondition of each routine: the rule-dispatch helpers
receive the kind of the previous token, and unary/binary are only invoked
on their operator tokens. -/
def tagHyp : PFun → CompilerSt → Prop
  | .pre k, st => k = st.parser.previous.kind
  | .inf k, st => k = st.parser.previous.kind
  | .una, st => st.parser.previous.kind = .minus ∨ st.parser.previous.kind = .bang
  | .bin, st =>
      st.parser.previous.kind = .minus ∨ st.parser.previous.kind = .plus ∨
      st.parser.previous.kind = .slash ∨ st.parser.previous.kind = .star ∨
      st.parser.previous.kind = .bangEqual ∨ st.parser.previous.kind = .equalEqual ∨
      st.parser.previous.kind = .greater ∨ st.parser.previous.kind = .greaterEqual ∨
      st.parser.previous.kind = .less ∨ st.parser.previous.kind = .lessEqual
  | _, _ => True

/-- A concrete compiler state in the middle of parsing "1 <= 2": the
compiler has just consumed the <= operator (previous token) and holds the
right operand 2 as the current token; the left operand's bytecode [1, 0]
is already in the chunk. -/
def c2stW : CompilerSt :=
  { scanner := ⟨5, 6, 1⟩,
    parser := { previous := ⟨.lessEqual, "<=".data, 1⟩,
                current := ⟨.numberTk, "2".data, 1⟩,
                hadError := false, panicMode := false },
    chunk := ⟨[1, 0], [.number (.finite 1)], [1, 1]⟩,
    errors := [] }

/-- The compiler state after parsing the right operand of "1 <= 2" from
c2stW: the constant 2 has been interned and emitted. -/
def c2stR : CompilerSt :=
  { scanner := ⟨6, 6, 1⟩,
    parser := { previous := ⟨.numberTk, "2".data, 1⟩,
                current := ⟨.endOfFile, [], 1⟩,
                hadError := false, panicMode := false },
    chunk := ⟨[1, 0, 1, 1], [.number (.finite 1), .number (.finite 2)], [1, 1, 1, 1]⟩,
    errors := [] }

/-! # Theorems

## Scanner progress lemmas -/

theorem peekAt_atEnd (src : List Char) (i : Nat) (h : src.length ≤ i) :
    peekAt src i = '\x00' :=
  List.getD_eq_default _ _ h

theorem skipCommentTo_mono (src : List Char) :
    ∀ f cur, cur ≤ skipCommentTo src f cur := by
  intro f
  induction f with
  | zero => intro cur; simp [skipCommentTo]
  | succ f ih =>
      intro cur
      unfold skipCommentTo
      split
      · exact le_trans (Nat.le_succ cur) (ih (cur + 1))
      · exact le_refl cur

theorem skipWsAux_mono (src : List Char) :
    ∀ f cur line, cur ≤ (skipWsAux src f cur line).1 := by
  intro f
  induction f with
  | zero => intro cur line; simp [skipWsAux]
  | succ f ih =>
      intro cur line
      unfold skipWsAux
      dsimp only
      repeat' split
      all_goals first
        | exact le_trans (Nat.le_succ cur) (ih (cur + 1) _)
        | exact le_trans (skipCommentTo_mono src _ cur) (ih _ line)
        | exact le_refl cur

theorem skipWsAux_atEnd (src : List Char) (f cur line : Nat)
    (h : src.length ≤ cur) : skipWsAux src f cur line = (cur, line) := by
  cases f with
  | zero => simp [skipWsAux]
  | succ f =>
      unfold skipWsAux
      rw [peekAt_atEnd src cur h]
      simp

theorem identEndAux_mono (src : List Char) :
    ∀ f cur, cur ≤ identEndAux src f cur := by
  intro f
  induction f with
  | zero => intro cur; simp [identEndAux]
  | succ f ih =>
      intro cur
      unfold identEndAux
      split
      · exact le_trans (Nat.le_succ cur) (ih (cur + 1))
      · exact le_refl cur

theorem digitsEndAux_mono (src : List Char) :
    ∀ f cur, cur ≤ digitsEndAux src f cur := by
  intro f
  induction f with
  | zero => intro cur; simp [digitsEndAux]
  | succ f ih =>
      intro cur
      unfold digitsEndAux
      split
      · exact le_trans (Nat.le_succ cur) (ih (cur + 1))
      · exact le_refl cur

theorem stringEndAux_mono (src : List Char) :
    ∀ f cur line, cur ≤ (stringEndAux src f cur line).1 := by
  intro f
  induction f with
  | zero => intro cur line; simp [stringEndAux]
  | succ f ih =>
      intro cur line
      unfold stringEndAux
      split
      · exact le_trans (Nat.le_succ cur) (ih (cur + 1) _)
      · exact le_refl cur

theorem identifierType_ne_eof (src : List Char) (a b : Nat) :
    identifierType src a b ≠ .endOfFile := by
  unfold identifierType checkKeyword
  repeat' split
  all_goals simp

theorem scanToken_atEnd (src : List Char) (s : Scanner)
    (h : src.length ≤ s.current) :
    scanToken src s = (⟨.endOfFile, [], s.line⟩, ⟨s.current, s.current, s.line⟩) := by
  unfold scanToken
  rw [skipWsAux_atEnd src _ s.current s.line h]
  dsimp only
  rw [if_pos h]
  simp [sliceLex]

theorem scanToken_progress (src : List Char) (s : Scanner)
    (h : (scanToken src s).1.kind ≠ .endOfFile) :
    s.current < (scanToken src s).2.current := by
  have hm := skipWsAux_mono src (src.length + 1) s.current s.line
  unfold scanToken at h ⊢
  dsimp only at h ⊢
  by_cases hend : src.length ≤ (skipWsAux src (src.length + 1) s.current s.line).1
  · rw [if_pos hend] at h
    exact absurd rfl h
  · rw [if_neg hend] at h ⊢
    set cur0 := (skipWsAux src (src.length + 1) s.current s.line).1 with hc
    set line0 := (skipWsAux src (src.length + 1) s.current s.line).2 with hl
    have hid := identEndAux_mono src (src.length + 1) (cur0 + 1)
    have hdg := digitsEndAux_mono src (src.length + 1) (cur0 + 1)
    have hdg2 := digitsEndAux_mono src (src.length + 1)
      (digitsEndAux src (src.length + 1) (cur0 + 1) + 1)
    have hstr := stringEndAux_mono src (src.length + 1) (cur0 + 1) line0
    clear h
    repeat' split
    all_goals simp only [simpleTok]
    all_goals omega

theorem scanToken_eof_end (src : List Char) (s : Scanner)
    (h : (scanToken src s).1.kind = .endOfFile) :
    src.length ≤ (scanToken src s).2.current := by
  unfold scanToken at h ⊢
  dsimp only at h ⊢
  by_cases hend : src.length ≤ (skipWsAux src (src.length + 1) s.current s.line).1
  · rw [if_pos hend] at h ⊢
    exact hend
  · rw [if_neg hend] at h
    exfalso
    revert h
    repeat' split
    all_goals simp only [simpleTok]
    all_goals intro h
    all_goals first
      | exact identifierType_ne_eof src _ _ h
      | simp at h

/-! ## Number-token counting -/

theorem countNumAux_succ (src : List Char) (f : Nat) (s : Scanner) :
    countNumAux src (f+1) s =
      if (scanToken src s).1.kind = .endOfFile then 0
      else numTokK (scanToken src s).1.kind + countNumAux src f (scanToken src s).2 :=
  rfl

theorem countNumAux_atEnd (src : List Char) (s : Scanner)
    (h : src.length ≤ s.current) : ∀ f, countNumAux src f s = 0 := by
  intro f
  cases f with
  | zero => rfl
  | succ f =>
      unfold countNumAux
      rw [scanToken_atEnd src s h]
      simp

theorem countNumAux_irrel (src : List Char) :
    ∀ f₁ f₂ (s : Scanner), src.length + 1 ≤ f₁ + s.current →
      src.length + 1 ≤ f₂ + s.current →
      countNumAux src f₁ s = countNumAux src f₂ s := by
  intro f₁
  induction f₁ with
  | zero =>
      intro f₂ s h1 _
      rw [countNumAux, countNumAux_atEnd src s (by omega) f₂]
  | succ f ih =>
      intro f₂ s h1 h2
      cases f₂ with
      | zero =>
          rw [countNumAux, countNumAux_atEnd src s (by omega) (f + 1)]
      | succ g =>
          rw [countNumAux_succ, countNumAux_succ]
          split
          · rfl
          · rename_i hne
            have hp := scanToken_progress src s hne
            have := ih g (scanToken src s).2 (by omega) (by omega)
            omega

theorem countNumberTokens_step (src : List Char) (s : Scanner)
    (h : (scanToken src s).1.kind ≠ .endOfFile) :
    countNumberTokens src s =
      numTokK (scanToken src s).1.kind +
        countNumberTokens src (scanToken src s).2 := by
  have hp := scanToken_progress src s h
  unfold countNumberTokens
  rw [countNumAux_succ, if_neg h]
  have := countNumAux_irrel src src.length (src.length + 1) (scanToken src s).2
    (by omega) (by omega)
  omega

theorem countNumberTokens_eof (src : List Char) (s : Scanner)
    (h : (scanToken src s).1.kind = .endOfFile) :
    countNumberTokens src s = 0 ∧
      countNumberTokens src (scanToken src s).2 = 0 := by
  constructor
  · unfold countNumberTokens
    rw [countNumAux_succ, if_pos h]
  · exact countNumAux_atEnd src _ (scanToken_eof_end src s h) _

/-! ## Instruction-sequence and state-extension lemmas -/

theorem InstrSeq.append {n : Nat} {xs ys : List Nat}
    (hx : InstrSeq n xs) (hy : InstrSeq n ys) : InstrSeq n (xs ++ ys) := by
  induction hx with
  | nil => simpa
  | op hb _ ih => exact .op hb ih
  | con hi _ ih => exact .con hi ih

theorem InstrSeq.mono {n m : Nat} (h : n ≤ m) {xs : List Nat}
    (hx : InstrSeq n xs) : InstrSeq m xs := by
  induction hx with
  | nil => exact .nil
  | op hb _ ih => exact .op hb ih
  | con hi _ ih => exact .con (lt_of_lt_of_le hi h) ih

theorem StExt.refl (st : CompilerSt) : StExt st st :=
  ⟨⟨[], by simp⟩, ⟨[], by simp⟩, id, id, id, id, ⟨[], by simp⟩⟩

theorem StExt.trans {a b c : CompilerSt} (h1 : StExt a b) (h2 : StExt b c) :
    StExt a c := by
  refine ⟨?_, ?_, fun h => h2.len_eq (h1.len_eq h), fun h => h2.wfi (h1.wfi h),
    fun h => h2.pm_he (h1.pm_he h), fun h => h2.he_mono (h1.he_mono h), ?_⟩
  · obtain ⟨t1, ht1⟩ := h1.code_app
    obtain ⟨t2, ht2⟩ := h2.code_app
    exact ⟨t1 ++ t2, by rw [ht2, ht1, List.append_assoc]⟩
  · obtain ⟨u1, hu1⟩ := h1.consts_app
    obtain ⟨u2, hu2⟩ := h2.consts_app
    exact ⟨u1 ++ u2, by rw [hu2, hu1, List.append_assoc]⟩
  · obtain ⟨e1, he1⟩ := h1.errors_app
    obtain ⟨e2, he2⟩ := h2.errors_app
    exact ⟨e1 ++ e2, by rw [he2, he1, List.append_assoc]⟩

theorem emitByte_fields (st : CompilerSt) (b : Nat) :
    (emitByte st b).chunk.code = st.chunk.code ++ [b] ∧
    (emitByte st b).chunk.lines = st.chunk.lines ++ [st.parser.previous.line] ∧
    (emitByte st b).chunk.constants = st.chunk.constants ∧
    (emitByte st b).parser = st.parser ∧
    (emitByte st b).scanner = st.scanner ∧
    (emitByte st b).errors = st.errors := by
  simp [emitByte, Chunk.write]

theorem stExt_emitByte (st : CompilerSt) (b : Nat) (hb : b ≠ 1) :
    StExt st (emitByte st b) := by
  obtain ⟨h1, h2, h3, h4, _, h6⟩ := emitByte_fields st b
  exact ⟨⟨[b], h1⟩, ⟨[], by simp [h3]⟩,
    fun h => by rw [h1, h2]; simp [h],
    fun h => by rw [h1, h3]; exact h.append (.op hb .nil),
    fun h => by rw [h4]; exact h,
    fun h => by rw [h4]; exact h,
    ⟨[], by simp [h6]⟩⟩

theorem numCur_emitByte (src : List Char) (st : CompilerSt) (b : Nat) :
    numCur src (emitByte st b) = numCur src st := by
  simp [numCur, emitByte]

theorem stExt_emitBytes2 (st : CompilerSt) (b1 b2 : Nat)
    (h1 : b1 ≠ 1) (h2 : b2 ≠ 1) : StExt st (emitBytes st [b1, b2]) := by
  have e : emitBytes st [b1, b2] = emitByte (emitByte st b1) b2 := rfl
  rw [e]
  exact (stExt_emitByte st b1 h1).trans (stExt_emitByte _ b2 h2)

theorem errorAt_fields (st : CompilerSt) (tok : Token) (msg : List Char) :
    (errorAt st tok msg).chunk = st.chunk ∧
    (errorAt st tok msg).scanner = st.scanner ∧
    (errorAt st tok msg).parser.previous = st.parser.previous ∧
    (errorAt st tok msg).parser.current = st.parser.current := by
  unfold errorAt
  split <;> simp

theorem errorAt_pm_he (st : CompilerSt) (tok : Token) (msg : List Char)
    (h : st.parser.panicMode = st.parser.hadError) :
    (errorAt st tok msg).parser.panicMode = (errorAt st tok msg).parser.hadError := by
  unfold errorAt
  split <;> simp [h]

theorem errorAt_he_mono (st : CompilerSt) (tok : Token) (msg : List Char)
    (h : st.parser.hadError = true) :
    (errorAt st tok msg).parser.hadError = true := by
  unfold errorAt
  split <;> simp [h]

theorem errorAt_errors_app (st : CompilerSt) (tok : Token) (msg : List Char) :
    ∃ e, (errorAt st tok msg).errors = st.errors ++ e := by
  unfold errorAt
  split
  · exact ⟨[], by simp⟩
  · exact ⟨[⟨tok.line, msg⟩], rfl⟩

theorem stExt_errorAt (st : CompilerSt) (tok : Token) (msg : List Char) :
    StExt st (errorAt st tok msg) := by
  obtain ⟨h1, _, _, _⟩ := errorAt_fields st tok msg
  exact ⟨⟨[], by simp [h1]⟩, ⟨[], by simp [h1]⟩, fun h => by rw [h1]; exact h,
    fun h => by rw [h1]; exact h, errorAt_pm_he st tok msg,
    errorAt_he_mono st tok msg, errorAt_errors_app st tok msg⟩

theorem numCur_errorAt (src : List Char) (st : CompilerSt) (tok : Token)
    (msg : List Char) : numCur src (errorAt st tok msg) = numCur src st := by
  obtain ⟨_, h2, _, h4⟩ := errorAt_fields st tok msg
  simp [numCur, h2, h4]

/-! ## The advance/consume helpers of the compiler -/

theorem advLoop_spec (src : List Char) : ∀ f (st st' : CompilerSt),
    advLoop src f st = .ok st' →
    st'.chunk = st.chunk ∧
    st'.parser.previous = st.parser.previous ∧
    (st.parser.panicMode = st.parser.hadError →
      st'.parser.panicMode = st'.parser.hadError) ∧
    numTokK st'.parser.current.kind + countNumberTokens src st'.scanner =
      countNumberTokens src st.scanner ∧
    (st.parser.hadError = true → st'.parser.hadError = true) ∧
    (∃ e, st'.errors = st.errors ++ e) := by
  intro f
  induction f with
  | zero => intro st st' h; exact absurd h (by simp [advLoop])
  | succ f ih =>
      intro st st' h
      rw [advLoop] at h
      by_cases he : (scanToken src st.scanner).1.kind = .errorTk
      · rw [if_pos he] at h
        obtain ⟨hc, hp, hph, hn, hhe, herr⟩ := ih _ st' h
        set st1 : CompilerSt :=
          { st with scanner := (scanToken src st.scanner).2,
                    parser := { st.parser with current := (scanToken src st.scanner).1 } }
          with hst1
        unfold errorAtCurrent at hc hp hph hn hhe herr
        obtain ⟨e1, e2, e3, e4⟩ :=
          errorAt_fields st1 st1.parser.current (scanToken src st.scanner).1.lexeme
        have hstep := countNumberTokens_step src st.scanner (by rw [he]; simp)
        refine ⟨by rw [hc, e1], by rw [hp, e3], ?_, ?_, ?_, ?_⟩
        · intro hh
          exact hph (errorAt_pm_he st1 _ _ hh)
        · rw [hn, e2]
          have hz : numTokK (scanToken src st.scanner).1.kind = 0 := by
            simp [numTokK, he]
          have hs1 : st1.scanner = (scanToken src st.scanner).2 := by rw [hst1]
          rw [hs1]
          omega
        · intro hh
          exact hhe (errorAt_he_mono st1 _ _ hh)
        · obtain ⟨ea, hea⟩ := errorAt_errors_app st1 st1.parser.current
            (scanToken src st.scanner).1.lexeme
          obtain ⟨eb, heb⟩ := herr
          refine ⟨ea ++ eb, ?_⟩
          rw [heb, hea, List.append_assoc]
      · rw [if_neg he] at h
        simp only [CRes.ok.injEq] at h
        subst h
        by_cases hf : (scanToken src st.scanner).1.kind = .endOfFile
        · obtain ⟨z1, z2⟩ := countNumberTokens_eof src st.scanner hf
          refine ⟨rfl, rfl, fun hh => hh, ?_, fun hh => hh, ⟨[], by simp⟩⟩
          simp only [hf, z1, z2, numTokK]
          simp
        · have hstep := countNumberTokens_step src st.scanner hf
          exact ⟨rfl, rfl, fun hh => hh, hstep.symm, fun hh => hh, ⟨[], by simp⟩⟩

theorem advLoop_no_ice (src : List Char) : ∀ f (st : CompilerSt),
    advLoop src f st ≠ .ice := by
  intro f
  induction f with
  | zero => intro st; simp [advLoop]
  | succ f ih =>
      intro st
      rw [advLoop]
      split
      · exact ih _
      · simp

theorem advanceC_spec (src : List Char) (f : Nat) (st st' : CompilerSt)
    (h : advanceC src f st = .ok st') :
    st'.chunk = st.chunk ∧
    st'.parser.previous = st.parser.current ∧
    (st.parser.panicMode = st.parser.hadError →
      st'.parser.panicMode = st'.parser.hadError) ∧
    numCur src st' = countNumberTokens src st.scanner := by
  obtain ⟨h1, h2, h3, h4, _, _⟩ := advLoop_spec src f _ st' h
  exact ⟨h1, h2, h3, h4⟩

theorem advanceC_no_ice (src : List Char) (f : Nat) (st : CompilerSt) :
    advanceC src f st ≠ .ice :=
  advLoop_no_ice src f _

theorem stExt_advanceC (src : List Char) (f : Nat) (st st' : CompilerSt)
    (h : advanceC src f st = .ok st') : StExt st st' := by
  obtain ⟨h1, _, h3, _⟩ := advanceC_spec src f st st' h
  obtain ⟨_, _, _, _, h5, h6⟩ := advLoop_spec src f _ st' h
  exact ⟨⟨[], by simp [h1]⟩, ⟨[], by simp [h1]⟩, fun hh => by rw [h1]; exact hh,
    fun hh => by rw [h1]; exact hh, h3, h5, h6⟩

theorem advanceC_numCur_le (src : List Char) (f : Nat) (st st' : CompilerSt)
    (h : advanceC src f st = .ok st') :
    numCur src st' + numTokK st.parser.current.kind = numCur src st := by
  obtain ⟨_, _, _, h4⟩ := advanceC_spec src f st st' h
  simp [numCur] at h4 ⊢
  omega

theorem consumeC_spec (src : List Char) (f : Nat) (k : TokenKind)
    (msg : List Char) (st st' : CompilerSt)
    (h : consumeC src f k msg st = .ok st') :
    StExt st st' ∧ numCur src st' ≤ numCur src st := by
  unfold consumeC at h
  split at h
  · have := advanceC_numCur_le src f st st' h
    exact ⟨stExt_advanceC src f st st' h, by omega⟩
  · simp only [CRes.ok.injEq] at h
    subst h
    exact ⟨stExt_errorAt st _ msg, le_of_eq (numCur_errorAt src st _ msg)⟩

theorem consumeC_no_ice (src : List Char) (f : Nat) (k : TokenKind)
    (msg : List Char) (st : CompilerSt) : consumeC src f k msg st ≠ .ice := by
  unfold consumeC
  split
  · exact advanceC_no_ice src f st
  · simp

/-! ## Emission helpers -/

theorem emitBytes2_fields (st : CompilerSt) (b1 b2 : Nat) :
    (emitBytes st [b1, b2]).chunk.code = st.chunk.code ++ [b1, b2] ∧
    (emitBytes st [b1, b2]).chunk.lines =
      st.chunk.lines ++ [st.parser.previous.line, st.parser.previous.line] ∧
    (emitBytes st [b1, b2]).chunk.constants = st.chunk.constants ∧
    (emitBytes st [b1, b2]).parser = st.parser ∧
    (emitBytes st [b1, b2]).scanner = st.scanner ∧
    (emitBytes st [b1, b2]).errors = st.errors := by
  simp [emitBytes, emitByte, Chunk.write]

theorem makeConstant_none_iff (st : CompilerSt) (v : Value) :
    makeConstant st v = none ↔ 255 < st.chunk.constants.length := by
  by_cases h : st.chunk.constants.length ≤ 255
  · simp [makeConstant, Chunk.addConstant, h]
    try omega
  · simp [makeConstant, Chunk.addConstant, h]
    try omega

theorem emitConstant_spec (src : List Char) (st : CompilerSt) (v : Value) :
    (∀ st', emitConstant st v = .ok st' →
      StExt st st' ∧
      st'.chunk.constants.length = st.chunk.constants.length + 1 ∧
      numCur src st' = numCur src st) ∧
    (st.chunk.constants.length ≤ 255 → emitConstant st v ≠ .ice) := by
  by_cases h : st.chunk.constants.length ≤ 255
  case pos =>
    set st2 : CompilerSt :=
      { st with chunk := { st.chunk with constants := st.chunk.constants ++ [v] } }
      with hst2
    have he : emitConstant st v =
        .ok (emitBytes st2 [OpCode.Constant.toByte, st.chunk.constants.length]) := by
      simp [emitConstant, makeConstant, Chunk.addConstant, h, hst2]
    obtain ⟨g1, g2, g3, g4, g5, g6⟩ :=
      emitBytes2_fields st2 OpCode.Constant.toByte st.chunk.constants.length
    have c2 : st2.chunk.code = st.chunk.code := rfl
    have c3 : st2.chunk.constants = st.chunk.constants ++ [v] := rfl
    have c4 : st2.chunk.lines = st.chunk.lines := rfl
    have c5 : st2.parser = st.parser := rfl
    have c6 : st2.scanner = st.scanner := rfl
    constructor
    · intro st' hok
      rw [he] at hok
      cases hok
      refine ⟨⟨⟨[1, st.chunk.constants.length], ?_⟩, ⟨[v], ?_⟩, ?_, ?_, ?_, ?_,
        ⟨[], ?_⟩⟩, ?_, ?_⟩
      · rw [g1, c2]
        rfl
      · rw [g3, c3]
      · intro hl
        rw [g1, g2, c2, c4]
        simp [hl]
      · intro hw
        rw [g1, g3, c2, c3]
        refine InstrSeq.append (hw.mono (by simp)) ?_
        have hlt : st.chunk.constants.length < (st.chunk.constants ++ [v]).length := by
          simp
        exact InstrSeq.con hlt .nil
      · intro hp
        rw [g4, c5]
        exact hp
      · intro hh
        rw [g4, c5]
        exact hh
      · rw [g6]
        simp
      · rw [g3, c3]
        simp
      · simp only [numCur, g4, g5, c5, c6]
    · intro _
      rw [he]
      simp
  case neg =>
    have he : emitConstant st v = .ice := by
      simp [emitConstant, makeConstant, Chunk.addConstant, h]
    constructor
    · intro st' hok
      rw [he] at hok
      cases hok
    · intro hb
      omega

theorem numberC_spec (src : List Char) (st : CompilerSt) :
    (∀ st', numberC st = .ok st' →
      StExt st st' ∧
      st'.chunk.constants.length = st.chunk.constants.length + 1 ∧
      numCur src st' = numCur src st) ∧
    (st.chunk.constants.length ≤ 255 → numberC st ≠ .ice) :=
  emitConstant_spec src st _

theorem literalC_spec (src : List Char) (st : CompilerSt) :
    (∀ st', literalC st = .ok st' →
      StExt st st' ∧
      st'.chunk.constants.length + numCur src st' =
        st.chunk.constants.length + numCur src st) ∧
    ((st.parser.previous.kind = .kwFalse ∨ st.parser.previous.kind = .kwTrue ∨
      st.parser.previous.kind = .kwNil) → literalC st ≠ .ice) := by
  constructor
  · intro st' hok
    unfold literalC at hok
    split at hok <;> cases hok <;>
      exact ⟨stExt_emitByte st _ (by decide),
        by rw [(emitByte_fields st _).2.2.1, numCur_emitByte]⟩
  · intro hk
    unfold literalC
    rcases hk with h | h | h <;> rw [h] <;> simp

/-! ## The parsing invariant -/

theorem POk_fuel (src : List Char) (slack : Nat) (st : CompilerSt) :
    POk src slack st .fuel :=
  ⟨fun _ h => (nomatch h), fun _ h => (nomatch h)⟩

theorem POk_ok_refl (src : List Char) (slack : Nat) (st : CompilerSt) :
    POk src slack st (.ok st) := by
  constructor
  · intro st' h
    cases h
    exact ⟨StExt.refl st, by omega⟩
  · intro _ h
    exact nomatch h

theorem POk_emitByte (src : List Char) (slack : Nat) (st : CompilerSt)
    (b : Nat) (hb : b ≠ 1) : POk src slack st (.ok (emitByte st b)) := by
  constructor
  · intro st' h
    cases h
    refine ⟨stExt_emitByte st b hb, ?_⟩
    rw [(emitByte_fields st b).2.2.1, numCur_emitByte]
    omega
  · intro _ h
    exact nomatch h

theorem POk_emitBytes2 (src : List Char) (slack : Nat) (st : CompilerSt)
    (b1 b2 : Nat) (h1 : b1 ≠ 1) (h2 : b2 ≠ 1) :
    POk src slack st (.ok (emitBytes st [b1, b2])) := by
  constructor
  · intro st' h
    cases h
    obtain ⟨g1, g2, g3, g4, g5, _⟩ := emitBytes2_fields st b1 b2
    refine ⟨stExt_emitBytes2 st b1 b2 h1 h2, ?_⟩
    rw [g3]
    simp only [numCur, g4, g5]
    omega
  · intro _ h
    exact nomatch h

theorem errorPrev_chunk (st : CompilerSt) (msg : List Char) :
    (errorPrev st msg).chunk = st.chunk :=
  (errorAt_fields st st.parser.previous msg).1

theorem errorPrev_numCur (src : List Char) (st : CompilerSt) (msg : List Char) :
    numCur src (errorPrev st msg) = numCur src st :=
  numCur_errorAt src st st.parser.previous msg

theorem POk_errorPrev (src : List Char) (slack : Nat) (st : CompilerSt)
    (msg : List Char) : POk src slack st (.ok (errorPrev st msg)) := by
  constructor
  · intro st' h
    cases h
    refine ⟨stExt_errorAt st st.parser.previous msg, ?_⟩
    rw [errorPrev_chunk, errorPrev_numCur]
    omega
  · intro _ h
    exact nomatch h

theorem consumeC_chunk (src : List Char) (f : Nat) (k : TokenKind)
    (msg : List Char) (st st' : CompilerSt)
    (h : consumeC src f k msg st = .ok st') : st'.chunk = st.chunk := by
  unfold consumeC at h
  split at h
  · exact (advanceC_spec src f st st' h).1
  · cases h
    exact (errorAt_fields st st.parser.current msg).1

theorem POk_consumeC (src : List Char) (f : Nat) (k : TokenKind)
    (msg : List Char) (slack : Nat) (st : CompilerSt) :
    POk src slack st (consumeC src f k msg st) := by
  constructor
  · intro st' h
    obtain ⟨hext, hnum⟩ := consumeC_spec src f k msg st st' h
    refine ⟨hext, ?_⟩
    have hc : st'.chunk = st.chunk := consumeC_chunk src f k msg st st' h
    rw [hc]
    omega
  · intro _
    exact consumeC_no_ice src f k msg st

theorem POk_bind {src : List Char} {s1 s2 : Nat} {st : CompilerSt} {r : CRes}
    {g : CompilerSt → CRes}
    (h1 : POk src s1 st r)
    (h2 : ∀ st1, r = .ok st1 → POk src s2 st1 (g st1)) :
    POk src (s1 + s2) st (r.bind g) := by
  cases r with
  | ice =>
      refine ⟨fun st' h => (nomatch h), fun hb h => ?_⟩
      exact h1.2 (by omega) rfl
  | fuel => exact POk_fuel src _ st
  | ok st1 =>
      have hg : CRes.bind (.ok st1) g = g st1 := rfl
      rw [hg]
      obtain ⟨he1, hn1⟩ := h1.1 st1 rfl
      obtain ⟨hg1, hg2⟩ := h2 st1 rfl
      constructor
      · intro st' h
        obtain ⟨he2, hn2⟩ := hg1 st' h
        exact ⟨he1.trans he2, by omega⟩
      · intro hb
        exact hg2 (by omega)

theorem POk_advBind (src : List Char) (f : Nat) (st : CompilerSt)
    (g : CompilerSt → CRes)
    (h2 : ∀ st1, advanceC src f st = .ok st1 →
      POk src (numTokK st1.parser.previous.kind) st1 (g st1)) :
    POk src 0 st ((advanceC src f st).bind g) := by
  cases ha : advanceC src f st with
  | ice => exact absurd ha (advanceC_no_ice src f st)
  | fuel => exact POk_fuel src 0 st
  | ok st1 =>
      have hg : CRes.bind (.ok st1) g = g st1 := rfl
      rw [hg]
      have hspec := advanceC_spec src f st st1 ha
      have hext := stExt_advanceC src f st st1 ha
      have hnum := advanceC_numCur_le src f st st1 ha
      have hk : numTokK st1.parser.previous.kind = numTokK st.parser.current.kind := by
        rw [hspec.2.1]
      have hcon : st1.chunk.constants = st.chunk.constants := by rw [hspec.1]
      obtain ⟨hg1, hg2⟩ := h2 st1 ha
      constructor
      · intro st' h
        obtain ⟨he2, hn2⟩ := hg1 st' h
        refine ⟨hext.trans he2, ?_⟩
        rw [hcon] at hn2
        omega
      · intro hb
        refine hg2 ?_
        rw [hcon, hk]
        omega

theorem POk_numberC (src : List Char) (st : CompilerSt) :
    POk src 1 st (numberC st) := by
  constructor
  · intro st' h
    obtain ⟨he, hc, hn⟩ := (numberC_spec src st).1 st' h
    exact ⟨he, by omega⟩
  · intro hb
    exact (numberC_spec src st).2 (by omega)

theorem POk_literalC (src : List Char) (slack : Nat) (st : CompilerSt)
    (h : st.parser.previous.kind = .kwFalse ∨ st.parser.previous.kind = .kwTrue ∨
      st.parser.previous.kind = .kwNil) :
    POk src slack st (literalC st) := by
  constructor
  · intro st' hok
    obtain ⟨he, hc⟩ := (literalC_spec src st).1 st' hok
    exact ⟨he, by omega⟩
  · intro _
    exact (literalC_spec src st).2 h

theorem POk_bind0 {src : List Char} {st : CompilerSt} {r : CRes}
    {g : CompilerSt → CRes}
    (h1 : POk src 0 st r)
    (h2 : ∀ st1, r = .ok st1 → POk src 0 st1 (g st1)) :
    POk src 0 st (r.bind g) := by
  simpa using POk_bind h1 h2

theorem pstep_inv (src : List Char) : ∀ f (tag : PFun) (st : CompilerSt),
    tagHyp tag st → POk src (tagSlack tag) st (pstep src f tag st) := by
  intro f
  induction f with
  | zero =>
      intro tag st _
      exact POk_fuel src _ st
  | succ f ih =>
      intro tag st hhyp
      cases tag with
      | pp prec =>
          simp only [pstep, tagSlack]
          refine POk_advBind src f st _ ?_
          intro st1 _
          have := POk_bind (ih (.pre st1.parser.previous.kind) st1 rfl)
            (fun st2 _ => ih (.loop prec) st2 trivial)
          simpa [tagSlack] using this
      | loop prec =>
          simp only [pstep, tagSlack]
          split
          · refine POk_advBind src f st _ ?_
            intro st1 _
            have := POk_bind (ih (.inf st1.parser.previous.kind) st1 rfl)
              (fun st2 _ => ih (.loop prec) st2 trivial)
            simpa [tagSlack] using this
          · exact POk_ok_refl src 0 st
      | pre k =>
          have hk : k = st.parser.previous.kind := hhyp
          simp only [pstep, tagSlack]
          split
          all_goals first
            | simpa [numTokK, tagSlack] using ih .grp st trivial
            | simpa [numTokK, tagSlack] using
                ih .una st (by simp only [tagHyp]; rw [← hk]; simp)
            | simpa [numTokK] using POk_numberC src st
            | simpa [numTokK, tagSlack] using
                POk_literalC src 0 st (by rw [← hk]; simp)
            | exact POk_errorPrev src _ st _
      | inf k =>
          have hk : k = st.parser.previous.kind := hhyp
          simp only [pstep, tagSlack]
          split
          all_goals first
            | simpa [numTokK, tagSlack] using
                ih .bin st (by simp only [tagHyp]; rw [← hk]; simp)
            | exact POk_errorPrev src _ st _
      | grp =>
          simp only [pstep, tagSlack]
          have := POk_bind (ih .expr st trivial)
            (fun st1 _ =>
              POk_consumeC src f .rightParen "Expect ')' after expression.".data 0 st1)
          simpa [tagSlack] using this
      | una =>
          simp only [pstep, tagSlack]
          refine POk_bind0 ?_ ?_
          · simpa [tagSlack] using ih (.pp .Unary) st trivial
          · intro st1 _
            rcases hhyp with h | h <;> rw [h] <;>
              exact POk_emitByte src 0 st1 _ (by decide)
      | bin =>
          simp only [pstep, tagSlack]
          refine POk_bind0 ?_ ?_
          · simpa [tagSlack] using
              ih (.pp (getRulePrec st.parser.previous.kind).plusOne) st trivial
          · intro st1 _
            rcases hhyp with h | h | h | h | h | h | h | h | h | h <;> rw [h] <;>
              first
                | exact POk_emitByte src 0 st1 _ (by decide)
                | exact POk_emitBytes2 src 0 st1 _ _ (by decide) (by decide)
      | expr =>
          simp only [pstep, tagSlack]
          simpa [tagSlack] using ih (.pp .Assignment) st trivial

/-! ## Compile-level invariants -/

theorem compileSt_shape (src : List Char) (f : Nat) (st : CompilerSt)
    (h : compileSt src f = .ok st) :
    ∃ st3, st = endCompiler st3 ∧ StExt initState st3 := by
  unfold compileSt at h
  cases h1 : advanceC src f initState with
  | ice => rw [h1] at h; exact (nomatch h)
  | fuel => rw [h1] at h; exact (nomatch h)
  | ok st1 =>
      rw [h1] at h
      replace h : ((pstep src f .expr st1).bind fun st2 =>
        (consumeC src f .endOfFile "Expect end of expression.".data st2).bind fun st3 =>
        CRes.ok (endCompiler st3)) = .ok st := h
      cases h2 : pstep src f PFun.expr st1 with
      | ice => rw [h2] at h; exact (nomatch h)
      | fuel => rw [h2] at h; exact (nomatch h)
      | ok st2 =>
          rw [h2] at h
          replace h : ((consumeC src f .endOfFile "Expect end of expression.".data st2).bind
            fun st3 => CRes.ok (endCompiler st3)) = .ok st := h
          cases h3 : consumeC src f .endOfFile "Expect end of expression.".data st2 with
          | ice => rw [h3] at h; exact (nomatch h)
          | fuel => rw [h3] at h; exact (nomatch h)
          | ok st3 =>
              rw [h3] at h
              replace h : CRes.ok (endCompiler st3) = .ok st := h
              cases h
              refine ⟨st3, rfl, ?_⟩
              exact ((stExt_advanceC src f _ st1 h1).trans
                (((pstep_inv src f .expr st1 trivial).1 st2 h2).1)).trans
                ((consumeC_spec src f _ _ st2 st3 h3).1)

theorem compileSt_no_ice (src : List Char) (f : Nat)
    (hlit : numLiterals src ≤ 256) : compileSt src f ≠ .ice := by
  intro h
  unfold compileSt at h
  cases h1 : advanceC src f initState with
  | ice => exact advanceC_no_ice src f initState h1
  | fuel => rw [h1] at h; exact (nomatch h)
  | ok st1 =>
      rw [h1] at h
      replace h : ((pstep src f .expr st1).bind fun st2 =>
        (consumeC src f .endOfFile "Expect end of expression.".data st2).bind fun st3 =>
        CRes.ok (endCompiler st3)) = .ice := h
      cases h2 : pstep src f PFun.expr st1 with
      | fuel => rw [h2] at h; exact (nomatch h)
      | ice =>
          have hc1 : st1.chunk = initState.chunk :=
            (advanceC_spec src f initState st1 h1).1
          have hnum := (advanceC_spec src f initState st1 h1).2.2.2
          refine (pstep_inv src f .expr st1 trivial).2 ?_ h2
          have hz : st1.chunk.constants.length = 0 := by rw [hc1]; rfl
          have hn : numCur src st1 = numLiterals src := by rw [hnum]; rfl
          simp only [tagSlack]
          omega
      | ok st2 =>
          rw [h2] at h
          replace h : ((consumeC src f .endOfFile "Expect end of expression.".data st2).bind
            fun st3 => CRes.ok (endCompiler st3)) = .ice := h
          cases h3 : consumeC src f .endOfFile "Expect end of expression.".data st2 with
          | ice => exact consumeC_no_ice src f _ _ st2 h3
          | fuel => rw [h3] at h; exact (nomatch h)
          | ok st3 => rw [h3] at h; exact (nomatch h)

theorem compile_no_ice (src : List Char) (f : Nat)
    (hlit : numLiterals src ≤ 256) : compile src f ≠ .ice := by
  intro h
  cases hc : compileSt src f with
  | ice => exact compileSt_no_ice src f hlit hc
  | fuel => simp only [compile, hc] at h; exact (nomatch h)
  | ok st =>
      simp only [compile, hc] at h
      split at h
      · exact (nomatch h)
      · exact (nomatch h)

theorem compile_ok_inv (src : List Char) (f : Nat) (c : Chunk)
    (h : compile src f = .ok c) :
    c.code.length = c.lines.length ∧ c.code ≠ [] ∧ c.code.getLast? = some 0 ∧
    InstrSeq c.constants.length c.code := by
  cases hc : compileSt src f with
  | ice => simp only [compile, hc] at h; exact (nomatch h)
  | fuel => simp only [compile, hc] at h; exact (nomatch h)
  | ok st =>
      simp only [compile, hc] at h
      split at h
      · exact (nomatch h)
      · cases h
        obtain ⟨st3, hst, hext⟩ := compileSt_shape src f st hc
        subst hst
        obtain ⟨g1, g2, g3, _, _, _⟩ := emitByte_fields st3 OpCode.Return.toByte
        have hlen : st3.chunk.code.length = st3.chunk.lines.length :=
          hext.len_eq rfl
        have hwf : InstrSeq st3.chunk.constants.length st3.chunk.code :=
          hext.wfi .nil
        have hret : OpCode.Return.toByte = 0 := rfl
        refine ⟨?_, ?_, ?_, ?_⟩
        · show (endCompiler st3).chunk.code.length = (endCompiler st3).chunk.lines.length
          rw [show (endCompiler st3).chunk.code = st3.chunk.code ++ [OpCode.Return.toByte] from g1,
            show (endCompiler st3).chunk.lines =
              st3.chunk.lines ++ [st3.parser.previous.line] from g2]
          simp [hlen]
        · show (endCompiler st3).chunk.code ≠ []
          rw [show (endCompiler st3).chunk.code = st3.chunk.code ++ [OpCode.Return.toByte] from g1]
          simp
        · show (endCompiler st3).chunk.code.getLast? = some 0
          rw [show (endCompiler st3).chunk.code = st3.chunk.code ++ [OpCode.Return.toByte] from g1,
            hret]
          simp
        · show InstrSeq (endCompiler st3).chunk.constants.length (endCompiler st3).chunk.code
          rw [show (endCompiler st3).chunk.code = st3.chunk.code ++ [OpCode.Return.toByte] from g1,
            show (endCompiler st3).chunk.constants = st3.chunk.constants from g3, hret]
          exact hwf.append (.op (by decide) .nil)

theorem compileSt_pm_he (src : List Char) (f : Nat) (st : CompilerSt)
    (h : compileSt src f = .ok st) :
    st.parser.panicMode = st.parser.hadError := by
  obtain ⟨st3, hst, hext⟩ := compileSt_shape src f st h
  subst hst
  have h3 := hext.pm_he rfl
  rw [show (endCompiler st3).parser = st3.parser from
    (emitByte_fields st3 OpCode.Return.toByte).2.2.2.1]
  exact h3

/-! ## The "Expect expression." path of do_rule_prefix -/

theorem errorAt_he_set (st : CompilerSt) (tok : Token) (msg : List Char)
    (h : st.parser.panicMode = false) :
    (errorAt st tok msg).parser.hadError = true := by
  unfold errorAt
  split
  · rename_i hp
    simp [h] at hp
  · rfl

theorem errorAt_he_pmhe (st : CompilerSt) (tok : Token) (msg : List Char)
    (h : st.parser.panicMode = st.parser.hadError) :
    (errorAt st tok msg).parser.hadError = true := by
  unfold errorAt
  split
  · rename_i hp
    rw [h] at hp
    exact hp
  · rfl

theorem errorAt_errors_set (st : CompilerSt) (tok : Token) (msg : List Char)
    (h : st.parser.panicMode = false) :
    (errorAt st tok msg).errors = st.errors ++ [⟨tok.line, msg⟩] := by
  unfold errorAt
  split
  · rename_i hp
    simp [h] at hp
  · rfl

theorem errorPrev_errors_set (st : CompilerSt) (msg : List Char)
    (h : st.parser.panicMode = false) :
    (errorPrev st msg).errors = st.errors ++ [⟨st.parser.previous.line, msg⟩] :=
  errorAt_errors_set st st.parser.previous msg h

theorem advLoop_err_he (src : List Char) (f : Nat) (st st1 : CompilerSt)
    (hpm : st.parser.panicMode = false)
    (hs : (scanToken src st.scanner).1.kind = .errorTk)
    (h : advLoop src f st = .ok st1) : st1.parser.hadError = true := by
  cases f with
  | zero => exact (nomatch h)
  | succ f =>
      rw [advLoop] at h
      rw [if_pos hs] at h
      exact (advLoop_spec src f _ st1 h).2.2.2.2.1 (errorAt_he_set _ _ _ hpm)

theorem advanceC_err_he (src : List Char) (f : Nat) (st st1 : CompilerSt)
    (hpm : st.parser.panicMode = false)
    (hs : (scanToken src st.scanner).1.kind = .errorTk)
    (h : advanceC src f st = .ok st1) : st1.parser.hadError = true := by
  unfold advanceC at h
  exact advLoop_err_he src f _ st1 (by exact hpm) (by exact hs) h

theorem advanceC_nonerr (src : List Char) (f : Nat) (st : CompilerSt)
    (h : (scanToken src st.scanner).1.kind ≠ .errorTk) :
    advanceC src (f + 1) st = .ok
      { st with scanner := (scanToken src st.scanner).2,
                parser := { st.parser with
                  previous := st.parser.current,
                  current := (scanToken src st.scanner).1 } } := by
  unfold advanceC
  rw [advLoop]
  split
  · rename_i hcond
    exact absurd hcond h
  · rfl

theorem advanceC_nonerr_fields (src : List Char) (f : Nat) (st st1 : CompilerSt)
    (hs : (scanToken src st.scanner).1.kind ≠ .errorTk)
    (h : advanceC src f st = .ok st1) :
    st1.parser.previous = st.parser.current ∧
    st1.parser.current = (scanToken src st.scanner).1 ∧
    st1.parser.panicMode = st.parser.panicMode ∧
    st1.parser.hadError = st.parser.hadError ∧
    st1.errors = st.errors ∧
    st1.scanner = (scanToken src st.scanner).2 := by
  cases f with
  | zero => exact (nomatch h)
  | succ f =>
      rw [advanceC_nonerr src f st hs] at h
      cases h
      exact ⟨rfl, rfl, rfl, rfl, rfl, rfl⟩

theorem doRulePre_no_action (src : List Char) (f : Nat) (k : TokenKind)
    (st : CompilerSt) (hk : prefixActionable k = false) :
    pstep src (f + 1) (.pre k) st = .ok (errorPrev st "Expect expression.".data) := by
  cases k <;> first
    | rfl
    | simp [prefixActionable] at hk

theorem pp_no_prefix_he (src : List Char) (f : Nat) (prec : Precedence)
    (st st' : CompilerSt)
    (hpa : prefixActionable st.parser.current.kind = false)
    (hpm : st.parser.panicMode = st.parser.hadError)
    (h : pstep src f (.pp prec) st = .ok st') :
    st'.parser.hadError = true := by
  cases f with
  | zero => exact (nomatch h)
  | succ f =>
      simp only [pstep] at h
      cases h1 : advanceC src f st with
      | ice => rw [h1] at h; exact (nomatch h)
      | fuel => rw [h1] at h; exact (nomatch h)
      | ok st1 =>
          rw [h1] at h
          replace h : ((pstep src f (.pre st1.parser.previous.kind) st1).bind
            fun st2 => pstep src f (.loop prec) st2) = .ok st' := h
          have hprev := (advanceC_spec src f st st1 h1).2.1
          have hpm1 : st1.parser.panicMode = st1.parser.hadError :=
            (advanceC_spec src f st st1 h1).2.2.1 hpm
          cases f with
          | zero => exact (nomatch h)
          | succ g =>
              rw [doRulePre_no_action src g st1.parser.previous.kind st1
                (by rw [hprev]; exact hpa)] at h
              replace h : pstep src (g + 1) (.loop prec)
                (errorPrev st1 "Expect expression.".data) = .ok st' := h
              have hext := ((pstep_inv src (g + 1) (.loop prec)
                (errorPrev st1 "Expect expression.".data) trivial).1 st' h).1
              exact hext.he_mono (errorAt_he_pmhe st1 _ _ hpm1)

theorem pp_no_prefix_report (src : List Char) (f : Nat) (prec : Precedence)
    (st st' : CompilerSt)
    (hpa : prefixActionable st.parser.current.kind = false)
    (hpm : st.parser.panicMode = false)
    (hs2 : (scanToken src st.scanner).1.kind ≠ .errorTk)
    (h : pstep src f (.pp prec) st = .ok st') :
    (⟨st.parser.current.line, "Expect expression.".data⟩ : ErrReport) ∈ st'.errors := by
  cases f with
  | zero => exact (nomatch h)
  | succ f =>
      simp only [pstep] at h
      cases f with
      | zero => exact (nomatch h)
      | succ g =>
          cases h1 : advanceC src (g + 1) st with
          | ice => rw [h1] at h; exact (nomatch h)
          | fuel => rw [h1] at h; exact (nomatch h)
          | ok st1 =>
              rw [h1] at h
              replace h : ((pstep src (g + 1) (.pre st1.parser.previous.kind) st1).bind
                fun st2 => pstep src (g + 1) (.loop prec) st2) = .ok st' := h
              obtain ⟨e1, e2, e3, e4, e5, e6⟩ :=
                advanceC_nonerr_fields src (g + 1) st st1 hs2 h1
              rw [doRulePre_no_action src g st1.parser.previous.kind st1
                (by rw [e1]; exact hpa)] at h
              replace h : pstep src (g + 1) (.loop prec)
                (errorPrev st1 "Expect expression.".data) = .ok st' := h
              have hpm1 : st1.parser.panicMode = false := by rw [e3]; exact hpm
              have hext := ((pstep_inv src (g + 1) (.loop prec)
                (errorPrev st1 "Expect expression.".data) trivial).1 st' h).1
              obtain ⟨ee, hee⟩ := hext.errors_app
              rw [hee, errorPrev_errors_set st1 "Expect expression.".data hpm1, e5, e1]
              simp

theorem compileSt_class_he (src : List Char) (f : Nat) (st : CompilerSt)
    (hpa : prefixActionable (scanToken src ⟨0, 0, 1⟩).1.kind = false)
    (h : compileSt src f = .ok st) :
    st.parser.hadError = true := by
  cases f with
  | zero => exact (nomatch h)
  | succ g =>
      unfold compileSt at h
      cases h1 : advanceC src (g + 1) initState with
      | ice => rw [h1] at h; exact (nomatch h)
      | fuel => rw [h1] at h; exact (nomatch h)
      | ok st1 =>
          rw [h1] at h
          replace h : ((pstep src (g + 1) .expr st1).bind fun st2 =>
            (consumeC src (g + 1) .endOfFile "Expect end of expression.".data st2).bind
            fun st3 => CRes.ok (endCompiler st3)) = .ok st := h
          cases h2 : pstep src (g + 1) PFun.expr st1 with
          | ice => rw [h2] at h; exact (nomatch h)
          | fuel => rw [h2] at h; exact (nomatch h)
          | ok st2 =>
              rw [h2] at h
              replace h : ((consumeC src (g + 1) .endOfFile
                "Expect end of expression.".data st2).bind
                fun st3 => CRes.ok (endCompiler st3)) = .ok st := h
              cases h3 : consumeC src (g + 1) .endOfFile
                  "Expect end of expression.".data st2 with
              | ice => rw [h3] at h; exact (nomatch h)
              | fuel => rw [h3] at h; exact (nomatch h)
              | ok st3 =>
                  rw [h3] at h
                  replace h : CRes.ok (endCompiler st3) = .ok st := h
                  cases h
                  rw [show (endCompiler st3).parser = st3.parser from
                    (emitByte_fields st3 OpCode.Return.toByte).2.2.2.1]
                  refine ((consumeC_spec src (g + 1) .endOfFile
                    "Expect end of expression.".data st2 st3 h3).1).he_mono ?_
                  have h2' : pstep src g (.pp .Assignment) st1 = .ok st2 := h2
                  by_cases he0 : (scanToken src (⟨0, 0, 1⟩ : Scanner)).1.kind = .errorTk
                  · have hext12 := ((pstep_inv src (g + 1) .expr st1 trivial).1 st2 h2).1
                    exact hext12.he_mono
                      (advanceC_err_he src (g + 1) initState st1 rfl he0 h1)
                  · obtain ⟨e1, e2, e3, e4, e5, e6⟩ :=
                      advanceC_nonerr_fields src (g + 1) initState st1 he0 h1
                    exact pp_no_prefix_he src g .Assignment st1 st2
                      (by rw [e2]; exact hpa) (by rw [e3, e4]; rfl) h2'

theorem compileSt_class_report (src : List Char) (f : Nat) (st : CompilerSt)
    (hpa : prefixActionable (scanToken src ⟨0, 0, 1⟩).1.kind = false)
    (hs1 : (scanToken src (⟨0, 0, 1⟩ : Scanner)).1.kind ≠ .errorTk)
    (hs2 : (scanToken src (scanToken src (⟨0, 0, 1⟩ : Scanner)).2).1.kind ≠ .errorTk)
    (h : compileSt src f = .ok st) :
    (⟨(scanToken src (⟨0, 0, 1⟩ : Scanner)).1.line, "Expect expression.".data⟩ :
      ErrReport) ∈ st.errors := by
  cases f with
  | zero => exact (nomatch h)
  | succ g =>
      unfold compileSt at h
      cases h1 : advanceC src (g + 1) initState with
      | ice => rw [h1] at h; exact (nomatch h)
      | fuel => rw [h1] at h; exact (nomatch h)
      | ok st1 =>
          rw [h1] at h
          replace h : ((pstep src (g + 1) .expr st1).bind fun st2 =>
            (consumeC src (g + 1) .endOfFile "Expect end of expression.".data st2).bind
            fun st3 => CRes.ok (endCompiler st3)) = .ok st := h
          cases h2 : pstep src (g + 1) PFun.expr st1 with
          | ice => rw [h2] at h; exact (nomatch h)
          | fuel => rw [h2] at h; exact (nomatch h)
          | ok st2 =>
              rw [h2] at h
              replace h : ((consumeC src (g + 1) .endOfFile
                "Expect end of expression.".data st2).bind
                fun st3 => CRes.ok (endCompiler st3)) = .ok st := h
              cases h3 : consumeC src (g + 1) .endOfFile
                  "Expect end of expression.".data st2 with
              | ice => rw [h3] at h; exact (nomatch h)
              | fuel => rw [h3] at h; exact (nomatch h)
              | ok st3 =>
                  rw [h3] at h
                  replace h : CRes.ok (endCompiler st3) = .ok st := h
                  cases h
                  obtain ⟨e1, e2, e3, e4, e5, e6⟩ :=
                    advanceC_nonerr_fields src (g + 1) initState st1 hs1 h1
                  have h2' : pstep src g (.pp .Assignment) st1 = .ok st2 := h2
                  have hrep := pp_no_prefix_report src g .Assignment st1 st2
                    (by rw [e2]; exact hpa) (by rw [e3]; rfl)
                    (by rw [e6]; exact hs2) h2'
                  have hline : st1.parser.current.line =
                      (scanToken src (⟨0, 0, 1⟩ : Scanner)).1.line := by rw [e2]; rfl
                  rw [hline] at hrep
                  obtain ⟨ee, hee⟩ := ((consumeC_spec src (g + 1) .endOfFile
                    "Expect end of expression.".data st2 st3 h3).1).errors_app
                  rw [show (endCompiler st3).errors = st3.errors from
                    (emitByte_fields st3 OpCode.Return.toByte).2.2.2.2.2, hee]
                  exact List.mem_append_left ee hrep

theorem compile_class_no_chunk (src : List Char) (f : Nat) (c : Chunk)
    (hpa : prefixActionable (scanToken src ⟨0, 0, 1⟩).1.kind = false) :
    compile src f ≠ .ok c := by
  intro h
  cases hc : compileSt src f with
  | ice => simp only [compile, hc] at h; exact (nomatch h)
  | fuel => simp only [compile, hc] at h; exact (nomatch h)
  | ok st =>
      simp only [compile, hc] at h
      split at h
      · exact (nomatch h)
      · rename_i hne
        exact hne (compileSt_class_he src f st hpa hc)

theorem compile_class_report (src : List Char) (f : Nat) (errs : List ErrReport)
    (hpa : prefixActionable (scanToken src ⟨0, 0, 1⟩).1.kind = false)
    (hs1 : (scanToken src (⟨0, 0, 1⟩ : Scanner)).1.kind ≠ .errorTk)
    (hs2 : (scanToken src (scanToken src (⟨0, 0, 1⟩ : Scanner)).2).1.kind ≠ .errorTk)
    (h : compile src f = .compileError errs) :
    (⟨(scanToken src (⟨0, 0, 1⟩ : Scanner)).1.line, "Expect expression.".data⟩ :
      ErrReport) ∈ errs := by
  cases hc : compileSt src f with
  | ice => simp only [compile, hc] at h; exact (nomatch h)
  | fuel => simp only [compile, hc] at h; exact (nomatch h)
  | ok st =>
      simp only [compile, hc] at h
      split at h
      · cases h
        exact compileSt_class_report src f st hpa hs1 hs2 hc
      · exact (nomatch h)

/-! ## VM lemmas -/

theorem run_rtErr_spec : ∀ f (vm : VMState) (rep : RtReport) (vm' : VMState),
    run f vm = .rtErr rep vm' →
    vm'.stack = [] ∧ rep.line = vm'.chunk.lines.getD (vm'.ip - 1) 0 ∧
    vm'.chunk = vm.chunk := by
  intro f
  induction f with
  | zero => intro vm rep vm' h; exact (nomatch h)
  | succ f ih =>
      intro vm rep vm' h
      rw [run] at h
      repeat' split at h
      all_goals first
        | (cases h; try exact ⟨rfl, rfl, rfl⟩)
        | (obtain ⟨a, b, c⟩ := ih _ _ _ h; exact ⟨a, b, c⟩)

theorem ofByte_return (b : Nat) (h : OpCode.ofByte b = some .Return) : b = 0 := by
  unfold OpCode.ofByte at h
  split at h <;> simp_all

theorem run_ok_spec : ∀ f (vm : VMState) (v : Option Value) (vm' : VMState),
    run f vm = .ok v vm' →
    (∃ w, v = some w) ∧ vm'.chunk = vm.chunk ∧
    vm'.chunk.code.getD (vm'.ip - 1) 255 = 0 := by
  intro f
  induction f with
  | zero => intro vm v vm' h; exact (nomatch h)
  | succ f ih =>
      intro vm v vm' h
      rw [run] at h
      repeat' split at h
      any_goals (cases h; done)
      case _ =>
        rename_i x2 bb hget x1 opv hop xs vv rr hstk
        cases h
        have hb0 := ofByte_return _ hop
        subst hb0
        refine ⟨⟨_, rfl⟩, rfl, ?_⟩
        simp only [List.getD_eq_getD_get?, Nat.add_sub_cancel]
        rw [hget]
        rfl
      all_goals (obtain ⟨a, b, c⟩ := ih _ _ _ h; exact ⟨a, b, c⟩)

theorem run_return_step (f : Nat) (vm : VMState) (w : Value) (rest : List Value)
    (h1 : vm.chunk.code.get? vm.ip = some 0) (h2 : vm.stack = w :: rest) :
    run (f + 1) vm = .ok (some w) { vm with ip := vm.ip + 1, stack := rest } := by
  rw [run, h1]
  simp only [OpCode.ofByte]
  rw [show ({ vm with ip := vm.ip + 1 } : VMState).stack = w :: rest from h2]

theorem run_equal_step (f : Nat) (vm : VMState) (a b : Value) (rest : List Value)
    (h1 : vm.chunk.code.get? vm.ip = some 11) (h2 : vm.stack = b :: a :: rest) :
    run (f + 1) vm =
      run f { vm with ip := vm.ip + 1, stack := .bool (valueBeq a b) :: rest } := by
  rw [run, h1]
  simp only [OpCode.ofByte]
  rw [show ({ vm with ip := vm.ip + 1 } : VMState).stack = b :: a :: rest from h2]

theorem valueBeq_iff_sameVariant (a b : Value) :
    valueBeq a b = true ↔ SameVariantEq a b := by
  cases a <;> cases b <;> simp [valueBeq, SameVariantEq]

theorem is_falsey_iff (v : Value) :
    v.is_falsey = true ↔ (v = .nil ∨ v = .bool false) := by
  cases v with
  | nil => simp [Value.is_falsey]
  | bool b => cases b <;> simp [Value.is_falsey]
  | number n => simp [Value.is_falsey]

theorem interpret_rtErr_spec (src : List Char) (f : Nat) (rep : RtReport)
    (vm : VMState) (h : interpret src f = .runtimeErr rep vm) :
    vm.stack = [] ∧ rep.line = vm.chunk.lines.getD (vm.ip - 1) 0 := by
  unfold interpret at h
  repeat' split at h
  all_goals first
    | (cases h; done)
    | (cases h
       obtain ⟨a, b, _⟩ := run_rtErr_spec f _ _ _ (by assumption)
       exact ⟨a, b⟩)

theorem interpret_ok_some (src : List Char) (f : Nat) (v : Option Value)
    (vm : VMState) (h : interpret src f = .ok v vm) : ∃ w, v = some w := by
  unfold interpret at h
  repeat' split at h
  all_goals first
    | (cases h; done)
    | (cases h
       exact (run_ok_spec f _ _ _ (by assumption)).1)

/-! ## Claims -/

/-- C1: interpreting "(-1 + 2) * 3 - -4" succeeds and yields Number 7.0,
and interpreting "!(5 - 4 > 3 * 2 == !nil)" succeeds and yields Bool true:
the compiler realizes the precedence ladder (Factor over Term, Comparison
over Equality, unary over both) with left associativity. -/
theorem c1_end_to_end :
    resultValue (interpret "(-1 + 2) * 3 - -4".data 100) =
      some (some (.number (.finite 7))) ∧
    resultValue (interpret "!(5 - 4 > 3 * 2 == !nil)".data 100) =
      some (some (.bool true)) := by
  constructor <;> decide

/-- C2: the binary rule compiles a less-or-equal as the operand bytecode
followed by Greater (12) then Not (10), and a greater-or-equal as the
operand bytecode followed by Less (13) then Not (10); consequently
"(0.0 / 0.0) <= 1" evaluates to Bool true (NaN comparisons desugar to a
negated strict comparison, deviating from IEEE-754). -/
theorem c2_comparison_desugar :
    (∀ (src : List Char) (f : Nat) (st st' : CompilerSt),
      st.parser.previous.kind = .lessEqual →
      pstep src f (.pp (getRulePrec .lessEqual).plusOne) st = .ok st' →
      pstep src (f+1) .bin st = .ok (emitBytes st' [12, 10]) ∧
      (emitBytes st' [12, 10]).chunk.code = st'.chunk.code ++ [12, 10] ∧
      ∃ rhs, st'.chunk.code = st.chunk.code ++ rhs) ∧
    (∀ (src : List Char) (f : Nat) (st st' : CompilerSt),
      st.parser.previous.kind = .greaterEqual →
      pstep src f (.pp (getRulePrec .greaterEqual).plusOne) st = .ok st' →
      pstep src (f+1) .bin st = .ok (emitBytes st' [13, 10]) ∧
      (emitBytes st' [13, 10]).chunk.code = st'.chunk.code ++ [13, 10] ∧
      ∃ rhs, st'.chunk.code = st.chunk.code ++ rhs) ∧
    resultValue (interpret "(0.0 / 0.0) <= 1".data 100) =
      some (some (.bool true)) := by
  refine ⟨?_, ?_, by decide⟩
  · intro src f st st' hk hp
    refine ⟨?_, ⟨(emitBytes2_fields st' 12 10).1, ?_⟩⟩
    · simp only [pstep, hk]
      rw [hp]
      rfl
    · exact ((pstep_inv src f (.pp (getRulePrec .lessEqual).plusOne) st trivial).1
        st' hp).1.code_app
  · intro src f st st' hk hp
    refine ⟨?_, ⟨(emitBytes2_fields st' 13 10).1, ?_⟩⟩
    · simp only [pstep, hk]
      rw [hp]
      rfl
    · exact ((pstep_inv src f (.pp (getRulePrec .greaterEqual).plusOne) st trivial).1
        st' hp).1.code_app

/-- C2 witness: the lessEqual shape at a concrete mid-parse state of
"1 <= 2". -/
theorem c2_witness :
    pstep "1 <= 2".data 11 .bin c2stW = .ok (emitBytes c2stR [12, 10]) ∧
    (emitBytes c2stR [12, 10]).chunk.code = c2stR.chunk.code ++ [12, 10] ∧
    ∃ rhs, c2stR.chunk.code = c2stW.chunk.code ++ rhs :=
  c2_comparison_desugar.1 "1 <= 2".data 10 c2stW c2stR (by decide) (by decide)

/-- C3: interpreting "-false" is a runtime error reporting "Operand must
be a number.", "true + false" is a runtime error reporting "Operands must
be numbers.", "1 +" is a compile error; and whenever interpretation ends
in a runtime error the reported line is lines[ip - 1] (the line of the
byte just consumed) and the value stack is empty. -/
theorem c3_runtime_errors :
    (∀ (src : List Char) (f : Nat) (rep : RtReport) (vm : VMState),
      interpret src f = .runtimeErr rep vm →
      vm.stack = [] ∧ rep.line = vm.chunk.lines.getD (vm.ip - 1) 0) ∧
    isRuntimeErr (interpret "-false".data 100) = true ∧
    rtMessage (interpret "-false".data 100) =
      some "Operand must be a number.".data ∧
    isRuntimeErr (interpret "true + false".data 100) = true ∧
    rtMessage (interpret "true + false".data 100) =
      some "Operands must be numbers.".data ∧
    isCompileErr (interpret "1 +".data 100) = true := by
  exact ⟨interpret_rtErr_spec, by decide, by decide, by decide, by decide, by decide⟩

/-- C3 witness: the runtime-error facts evaluated on the "-false" run. -/
theorem c3_witness :
    (⟨⟨[9, 2, 0], [], [1, 1, 1]⟩, 2, ([] : List Value)⟩ : VMState).stack = [] ∧
    (⟨"Operand must be a number.".data, 1⟩ : RtReport).line =
      (⟨⟨[9, 2, 0], [], [1, 1, 1]⟩, 2, ([] : List Value)⟩ : VMState).chunk.lines.getD
        ((⟨⟨[9, 2, 0], [], [1, 1, 1]⟩, 2, ([] : List Value)⟩ : VMState).ip - 1) 0 :=
  c3_runtime_errors.1 "-false".data 100 _ _ (by decide)

/-- C4: every Chunk.write appends exactly one byte and one line, so
compiled chunks keep len(code) = len(lines); every successful compile
produces a non-empty code sequence whose final byte is 0 (Return). -/
theorem c4_chunk_invariants :
    (∀ (c : Chunk) (b l : Nat),
      (Chunk.write c b l).code.length = c.code.length + 1 ∧
      (Chunk.write c b l).lines.length = c.lines.length + 1 ∧
      (Chunk.write c b l).code = c.code ++ [b] ∧
      (Chunk.write c b l).lines = c.lines ++ [l]) ∧
    (∀ (src : List Char) (f : Nat) (c : Chunk), compile src f = .ok c →
      c.code.length = c.lines.length ∧ c.code ≠ [] ∧ c.code.getLast? = some 0) := by
  constructor
  · intro c b l
    refine ⟨?_, ?_, rfl, rfl⟩ <;> simp [Chunk.write]
  · intro src f c h
    obtain ⟨a, b, c', _⟩ := compile_ok_inv src f c h
    exact ⟨a, b, c'⟩

/-- C4 witness: the invariant evaluated on the compile of "1". -/
theorem c4_witness :
    (⟨[1, 0, 0], [.number (.finite 1)], [1, 1, 1]⟩ : Chunk).code.length =
      (⟨[1, 0, 0], [.number (.finite 1)], [1, 1, 1]⟩ : Chunk).lines.length ∧
    (⟨[1, 0, 0], [.number (.finite 1)], [1, 1, 1]⟩ : Chunk).code ≠ [] ∧
    (⟨[1, 0, 0], [.number (.finite 1)], [1, 1, 1]⟩ : Chunk).code.getLast? = some 0 :=
  c4_chunk_invariants.2 "1".data 50 _ (by decide)

/-- C5: constant interning fails fatally iff the new index does not fit in
one byte (the pool already holds more than 255 entries); any source with
at most 256 number literals compiles without that internal error; and in
every successfully compiled chunk each index inlined after a Constant
opcode is a valid index into the constant pool. -/
theorem c5_constant_pool :
    (∀ (st : CompilerSt) (v : Value),
      makeConstant st v = none ↔ 255 < st.chunk.constants.length) ∧
    (∀ (src : List Char) (f : Nat), numLiterals src ≤ 256 →
      compile src f ≠ .ice) ∧
    (∀ (src : List Char) (f : Nat) (c : Chunk), compile src f = .ok c →
      InstrSeq c.constants.length c.code) :=
  ⟨makeConstant_none_iff, compile_no_ice,
    fun src f c h => (compile_ok_inv src f c h).2.2.2⟩

/-- C5 witness: the pool facts evaluated on the compile of "1 + 2". -/
theorem c5_witness :
    compile "1 + 2".data 100 ≠ .ice ∧
    InstrSeq
      (⟨[1, 0, 1, 1, 3, 0], [.number (.finite 1), .number (.finite 2)],
        [1, 1, 1, 1, 1, 1]⟩ : Chunk).constants.length
      (⟨[1, 0, 1, 1, 3, 0], [.number (.finite 1), .number (.finite 2)],
        [1, 1, 1, 1, 1, 1]⟩ : Chunk).code :=
  ⟨c5_constant_pool.2.1 "1 + 2".data 100 (by decide),
    c5_constant_pool.2.2 "1 + 2".data 100 _ (by decide)⟩

/-- C6: the Equal opcode pushes exactly the model equality of the two
popped values (same variant and payloads equal by the payload's natural
equality, with IEEE Number equality so NaN is unequal to NaN and
cross-type comparisons are false), and is_falsey holds exactly for Nil and
Bool false, with every other value truthy, including Number 0. -/
theorem c6_equality_falsey :
    (∀ (f : Nat) (vm : VMState) (a b : Value) (rest : List Value),
      vm.chunk.code.get? vm.ip = some 11 → vm.stack = b :: a :: rest →
      run (f+1) vm =
        run f { vm with ip := vm.ip + 1, stack := .bool (valueBeq a b) :: rest }) ∧
    (∀ a b : Value, valueBeq a b = true ↔ SameVariantEq a b) ∧
    valueBeq (.number .nan) (.number .nan) = false ∧
    (∀ v : Value, v.is_falsey = true ↔ (v = .nil ∨ v = .bool false)) ∧
    (Value.number (.finite 0)).is_falsey = false ∧
    resultValue (interpret "true == 1".data 100) = some (some (.bool false)) ∧
    resultValue (interpret "nil == nil".data 100) = some (some (.bool true)) :=
  ⟨run_equal_step, valueBeq_iff_sameVariant, by decide, is_falsey_iff,
    by decide, by decide, by decide⟩

/-- C6 witness: the Equal step evaluated on a concrete cross-type pair. -/
theorem c6_witness :
    run 5 (⟨⟨[11, 0], [], [1, 1]⟩, 0,
        [.number (.finite 1), .bool true]⟩ : VMState) =
      run 4 (⟨⟨[11, 0], [], [1, 1]⟩, 1, [.bool false]⟩ : VMState) :=
  c6_equality_falsey.1 4 _ (.bool true) (.number (.finite 1)) []
    (by decide) (by decide)

/-- C7: every emitted byte is written with the line of the previously
consumed token at the moment of emission; compiling "5 newline * newline 6"
records line 3 for the Multiply byte (index 4 of the code). -/
theorem c7_line_attribution :
    (∀ (st : CompilerSt) (b : Nat),
      (emitByte st b).chunk.code = st.chunk.code ++ [b] ∧
      (emitByte st b).chunk.lines = st.chunk.lines ++ [st.parser.previous.line]) ∧
    compile "5\n*\n6".data 100 =
      .ok ⟨[1, 0, 1, 1, 5, 0],
           [.number (.finite 5), .number (.finite 6)],
           [1, 1, 3, 3, 3, 3]⟩ ∧
    ([1, 0, 1, 1, 5, 0] : List Nat).get? 4 = some OpCode.Multiply.toByte ∧
    ([1, 1, 3, 3, 3, 3] : List Nat).get? 4 = some 3 :=
  ⟨fun st b => ⟨(emitByte_fields st b).1, (emitByte_fields st b).2.1⟩,
    by decide, by decide, by decide⟩

/-- C8 counterexample: after compiling "1 +" the compiler returns with
panic_mode still set — it is never cleared, not even at end of input, so
the claim that panic_mode is clear after compile returns is false. -/
theorem c8_counterexample :
    (match compileSt "1 +".data 100 with
      | .ok st => st.parser.panicMode
      | _ => false) = true := by
  decide

/-- C8 (amended): once the first error is reported, panic_mode and
had_error are set together and every further report is suppressed (the
state is returned unchanged); panic_mode is never reset, so when compile
returns, panic_mode equals had_error (it remains set exactly when an
error was reported). -/
theorem c8_panic_mode_amended :
    (∀ (st : CompilerSt) (tok : Token) (msg : List Char),
      st.parser.panicMode = true → errorAt st tok msg = st) ∧
    (∀ (st : CompilerSt) (tok : Token) (msg : List Char),
      st.parser.panicMode = false →
      (errorAt st tok msg).parser.panicMode = true ∧
      (errorAt st tok msg).parser.hadError = true ∧
      (errorAt st tok msg).errors = st.errors ++ [⟨tok.line, msg⟩]) ∧
    (∀ (src : List Char) (f : Nat) (st : CompilerSt),
      compileSt src f = .ok st →
      st.parser.panicMode = st.parser.hadError) := by
  refine ⟨?_, ?_, compileSt_pm_he⟩
  · intro st tok msg h
    unfold errorAt
    rw [if_pos h]
  · intro st tok msg h
    unfold errorAt
    rw [if_neg (by simp [h])]
    exact ⟨rfl, rfl, rfl⟩

/-- C8 witness: suppression evaluated at a concrete panicking state. -/
theorem c8_witness :
    errorAt { initState with
              parser := { initState.parser with panicMode := true } }
        ⟨.errorTk, [], 1⟩ [] =
      { initState with
        parser := { initState.parser with panicMode := true } } :=
  c8_panic_mode_amended.1 _ ⟨.errorTk, [], 1⟩ [] (by decide)

/-- C9 counterexample: the source ")~" starts with a token (rightParen)
that has no prefix action, yet compile does NOT report
"Expect expression.": while fetching the second token, `advance` scans
the invalid character `~`, reports "Unexpected character." and enters
panic mode, which suppresses the "Expect expression." report that
do_rule_prefix would otherwise emit.  The only report is the lexical
one. -/
theorem c9_counterexample :
    prefixActionable (scanToken ")~".data ⟨0, 0, 1⟩).1.kind = false ∧
    compile ")~".data 100 = .compileError [⟨1, "Unexpected character.".data⟩] ∧
    ¬ ((⟨1, "Expect expression.".data⟩ : ErrReport) ∈
        [(⟨1, "Unexpected character.".data⟩ : ErrReport)]) := by
  refine ⟨by decide, by decide, by decide⟩

/-- C9 (amended): for every source whose first scanned token has no
prefix action in do_rule_prefix (this includes the empty source, whose
first token is EndOfFile), compile never produces a Chunk; if moreover
no lexical Error token is scanned while fetching that token and its
successor (so panic mode is still clear when do_rule_prefix dispatches),
every CompileError outcome contains the report "Expect expression." at
the first token's line.  In particular "", ")" and "+" report exactly
"Expect expression." and return CompileError. -/
theorem c9_expect_expression_amended :
    (∀ (src : List Char) (f : Nat) (c : Chunk),
      prefixActionable (scanToken src ⟨0, 0, 1⟩).1.kind = false →
      compile src f ≠ .ok c) ∧
    (∀ (src : List Char) (f : Nat) (errs : List ErrReport),
      prefixActionable (scanToken src ⟨0, 0, 1⟩).1.kind = false →
      (scanToken src (⟨0, 0, 1⟩ : Scanner)).1.kind ≠ .errorTk →
      (scanToken src (scanToken src (⟨0, 0, 1⟩ : Scanner)).2).1.kind ≠ .errorTk →
      compile src f = .compileError errs →
      (⟨(scanToken src (⟨0, 0, 1⟩ : Scanner)).1.line, "Expect expression.".data⟩ :
        ErrReport) ∈ errs) ∧
    compile "".data 100 = .compileError [⟨1, "Expect expression.".data⟩] ∧
    compile ")".data 100 = .compileError [⟨1, "Expect expression.".data⟩] ∧
    compile "+".data 100 = .compileError [⟨1, "Expect expression.".data⟩] := by
  refine ⟨fun src f c hpa => compile_class_no_chunk src f c hpa,
    fun src f errs hpa hs1 hs2 h => compile_class_report src f errs hpa hs1 hs2 h,
    by decide, by decide, by decide⟩

/-- C9 witness: the universal report part evaluated on the source ")". -/
theorem c9_witness :
    (⟨1, "Expect expression.".data⟩ : ErrReport) ∈
      [(⟨1, "Expect expression.".data⟩ : ErrReport)] :=
  c9_expect_expression_amended.2.1 ")".data 100
    [⟨1, "Expect expression.".data⟩] (by decide) (by decide) (by decide) (by decide)

/-- C10: the dispatch loop never yields Ok(None): whenever it yields Ok,
the value is Some of the value popped by the terminal Return opcode, the
byte just consumed at the final ip is the Return opcode 0 (nothing after
it is dispatched), and a Return with top of stack w halts immediately
yielding w; the same holds through interpret. -/
theorem c10_return_semantics :
    (∀ (f : Nat) (vm : VMState) (v : Option Value) (vm' : VMState),
      run f vm = .ok v vm' →
      (∃ w, v = some w) ∧ vm'.chunk = vm.chunk ∧
      vm'.chunk.code.getD (vm'.ip - 1) 255 = 0) ∧
    (∀ (src : List Char) (f : Nat) (v : Option Value) (vm : VMState),
      interpret src f = .ok v vm → ∃ w, v = some w) ∧
    (∀ (f : Nat) (vm : VMState) (w : Value) (rest : List Value),
      vm.chunk.code.get? vm.ip = some 0 → vm.stack = w :: rest →
      run (f + 1) vm = .ok (some w) { vm with ip := vm.ip + 1, stack := rest }) :=
  ⟨run_ok_spec, interpret_ok_some, run_return_step⟩

/-- C10 witness: the Return step evaluated on a concrete one-instruction
chunk. -/
theorem c10_witness :
    run 1 (⟨⟨[0], [], [1]⟩, 0, [.nil]⟩ : VMState) =
      .ok (some .nil) (⟨⟨[0], [], [1]⟩, 1, []⟩ : VMState) :=
  c10_return_semantics.2.2 0 _ .nil [] (by decide) (by decide)

end Clox
